import Mathlib

set_option maxHeartbeats 1000000
set_option maxRecDepth 4000

/-!
Shallow embedding of the nebius2api relay: the key pool manager
(`services/keyPool.ts`), the chat-completion route (`routes/chat.ts`),
and the error transformer (`middleware/error.ts`).  Text is modeled as
`List Char`, byte streams as `List Nat`, timestamps and counters as `Nat`,
and the external Redis store as an association list of credential records
keyed by the credential string.
-/

/-! ### JavaScript string primitives used by the source -/

/-- `startsWithL pat s` models JavaScript `s.startsWith(pat)`. -/
def startsWithL : List Char → List Char → Bool
  | [], _ => true
  | _ :: _, [] => false
  | p :: ps, c :: cs => p == c && startsWithL ps cs

/-- `containsSub pat s` models JavaScript `s.includes(pat)`. -/
def containsSub (pat : List Char) : List Char → Bool
  | [] => pat.isEmpty
  | c :: cs => startsWithL pat (c :: cs) || containsSub pat cs

/-- First occurrence split: `splitFirst sep s = some (pre, post)` when `sep`
first occurs in `s` with `pre` the text before it and `post` the text after
it, `none` when `sep` does not occur.  This models the position found by
JavaScript `s.indexOf(sep)`. -/
def splitFirst (sep : List Char) : List Char → Option (List Char × List Char)
  | [] => none
  | c :: cs =>
    if startsWithL sep (c :: cs) then some ([], List.drop sep.length (c :: cs))
    else
      match splitFirst sep cs with
      | some (pre, post) => some (c :: pre, post)
      | none => none

/-- Prepend a character to the first piece of a split result. -/
def consHead (c : Char) : List (List Char) → List (List Char)
  | [] => [[c]]
  | f :: fs => (c :: f) :: fs

/-- `splitOnList sep s` models JavaScript `s.split(sep)` for a non-empty
string separator: leftmost, non-overlapping matches. -/
def splitOnList (sep : List Char) : List Char → List (List Char)
  | [] => [[]]
  | c :: cs =>
    if startsWithL sep (c :: cs) then
      [] :: splitOnList sep (List.drop (sep.length - 1) cs)
    else consHead c (splitOnList sep cs)
termination_by l => l.length
decreasing_by
  · simp only [List.length_drop, List.length_cons]; omega
  · simp only [List.length_cons]; omega

/-- `splitSep s` models JavaScript `s.split('\n\n')`, the frame split used by
the streaming transform in `routes/chat.ts`. -/
def splitSep : List Char → List (List Char)
  | [] => [[]]
  | [c] => [[c]]
  | c1 :: c2 :: rest =>
    if c1 = '\n' && c2 = '\n' then [] :: splitSep rest
    else consHead c1 (splitSep (c2 :: rest))

/-- `trimL s` models JavaScript `s.trim()` on the whitespace the source
inputs use (space, tab, carriage return, newline). -/
def trimL (s : List Char) : List Char :=
  ((s.dropWhile Char.isWhitespace).reverse.dropWhile Char.isWhitespace).reverse

/-- JavaScript `a || b` on an optional number: `0` and `undefined` are falsy. -/
def jsOrNat : Option Nat → Nat → Nat
  | some n, d => if n = 0 then d else n
  | none, d => d

/-- JavaScript `a || b` on an optional string: `""` and `undefined` are falsy. -/
def jsOrStr : Option String → String → String
  | some s, d => if s = "" then d else s
  | none, d => d

/-! ### Data model of `types/keyPool.ts` -/

/-- `ApiKey.rateLimit` of `types/keyPool.ts`. -/
structure RateLimit where
  rpm : Nat
  current : Nat
  lastReset : Nat
  deriving DecidableEq, Repr

/-- `ApiKey.usage` of `types/keyPool.ts`. -/
structure KeyUsage where
  totalTokens : Nat
  promptTokens : Nat
  completionTokens : Nat
  totalRequests : Nat
  lastUsed : Nat
  deriving DecidableEq, Repr

/-- `ApiKey` of `types/keyPool.ts`: one credential record of the pool. -/
structure ApiKey where
  key : String
  rateLimit : RateLimit
  usage : KeyUsage
  algorithm : String
  enabled : Bool
  disabledReason : Option String := none
  disabledAt : Option Nat := none
  deriving DecidableEq, Repr

/-- `KeyPoolConfig` of `types/keyPool.ts`. -/
structure KeyPoolConfig where
  currentAlgorithm : String
  defaultRpm : Nat
  deriving DecidableEq, Repr

/-- Redis `get` of a pool record: the store is modeled as a list of records,
keyed by the credential string. -/
def findKey (store : List ApiKey) (key : String) : Option ApiKey :=
  store.find? (fun x => x.key == key)

/-- Redis `set` of a pool record: overwrite the record with the same key,
or create it. -/
def setKeyStore (store : List ApiKey) (k : ApiKey) : List ApiKey :=
  if store.any (fun x => x.key == k.key) then
    store.map (fun x => if x.key == k.key then k else x)
  else store ++ [k]

/-- The store holds at most one record per credential string; Redis keys are
unique, so list states reachable from the real store satisfy this. -/
def KeysNodup (store : List ApiKey) : Prop :=
  (store.map (·.key)).Nodup

/-! ### KeyPoolManager operations (`services/keyPool.ts`) -/

/-- The fresh record built by `KeyPoolManager.addKey`: note the
`rpm || this.config?.defaultRpm || 60` fallback chain. -/
def newApiKey (cfg : Option KeyPoolConfig) (now : Nat) (key : String)
    (rpm : Option Nat) : ApiKey :=
  { key := key
    rateLimit :=
      { rpm := jsOrNat rpm (jsOrNat (cfg.map (·.defaultRpm)) 60)
        current := 0
        lastReset := now }
    usage :=
      { totalTokens := 0, promptTokens := 0, completionTokens := 0
        totalRequests := 0, lastUsed := 0 }
    algorithm := jsOrStr (cfg.map (·.currentAlgorithm)) "round-robin"
    enabled := true }

/-- `KeyPoolManager.addKey`: builds the record and writes it to the store. -/
def addKey (cfg : Option KeyPoolConfig) (now : Nat) (store : List ApiKey)
    (key : String) (rpm : Option Nat) : List ApiKey :=
  setKeyStore store (newApiKey cfg now key rpm)

/-- The per-record body of `KeyPoolManager.resetRateLimits`: reset the window
when at least 60000 ms have elapsed since the last reset. -/
def resetLimitOne (now : Nat) (k : ApiKey) : ApiKey :=
  if 60000 ≤ now - k.rateLimit.lastReset then
    { k with rateLimit := { k.rateLimit with current := 0, lastReset := now } }
  else k

/-- `KeyPoolManager.resetRateLimits`: the periodic sweep over every record. -/
def resetRateLimits (now : Nat) (store : List ApiKey) : List ApiKey :=
  store.map (resetLimitOne now)

/-- `enabledKeys.sort(cmp)[0]` for a numeric ascending comparator: JavaScript
sort is stable, so this is the leftmost record with the minimal measure. -/
def minByNat (f : ApiKey → Nat) (k : ApiKey) (ks : List ApiKey) : ApiKey :=
  ks.foldl (fun best x => if f x < f best then x else best) k

/-- The `switch (algorithm)` of `KeyPoolManager.getKey` and
`KeyPoolManager.retryWithFreshKey`. -/
def selectByAlgorithm (alg : String) (enabledKeys : List ApiKey) : Option ApiKey :=
  match enabledKeys with
  | [] => none
  | k :: ks =>
    if alg = "round-robin" then some (minByNat (fun a => a.usage.lastUsed) k ks)
    else if alg = "least-used" then some (minByNat (fun a => a.usage.totalRequests) k ks)
    else if alg = "token-balanced" then some (minByNat (fun a => a.usage.totalTokens) k ks)
    else some k

/-- The success-path update of `getKey` / `retryWithFreshKey`: bump the
rate-limit counter and usage statistics and stamp the use time. -/
def bumpSelected (now : Nat) (sel : ApiKey) : ApiKey :=
  { sel with
    rateLimit := { sel.rateLimit with current := sel.rateLimit.current + 1 }
    usage := { sel.usage with lastUsed := now, totalRequests := sel.usage.totalRequests + 1 } }

/-- `KeyPoolManager.getKey`: explicit user key bypasses the pool; otherwise
select among enabled records by the configured algorithm, fail when the
chosen record is rate limited, else persist the bumped record and return its
identifier.  Errors carry the thrown `Error` messages of the source. -/
def getKey (cfg : Option KeyPoolConfig) (now : Nat) (store : List ApiKey)
    (userKey : Option String) : Except String (String × List ApiKey) :=
  match userKey with
  | some k => .ok (k, store)
  | none =>
    if store.isEmpty then .error "No API keys available in the pool"
    else
      let enabledKeys := store.filter (·.enabled)
      if enabledKeys.isEmpty then .error "No enabled API keys available in the pool"
      else
        let algorithm := jsOrStr (cfg.map (·.currentAlgorithm)) "round-robin"
        match selectByAlgorithm algorithm enabledKeys with
        | none => .error "Failed to select an API key"
        | some sel =>
          if sel.rateLimit.rpm ≤ sel.rateLimit.current then
            .error "Rate limit exceeded for all available keys"
          else
            let updated := bumpSelected now sel
            .ok (updated.key, setKeyStore store updated)

/-- The token-usage delta passed to `KeyPoolManager.updateKeyStats`. -/
structure Usage3 where
  totalTokens : Nat
  promptTokens : Nat
  completionTokens : Nat
  deriving DecidableEq, Repr

/-- `KeyPoolManager.updateKeyStats`: accumulate token counters; a missing
record is a silent no-op. -/
def updateKeyStats (store : List ApiKey) (key : String) (u : Usage3) : List ApiKey :=
  match findKey store key with
  | none => store
  | some kd =>
    setKeyStore store
      { kd with usage :=
        { kd.usage with
          totalTokens := kd.usage.totalTokens + u.totalTokens
          promptTokens := kd.usage.promptTokens + u.promptTokens
          completionTokens := kd.usage.completionTokens + u.completionTokens } }

/-- `KeyPoolManager.disableKey`: mark the record disabled with a reason and
timestamp; a missing record is a silent no-op. -/
def disableKey (store : List ApiKey) (key : String) (reason : String)
    (now : Nat) : List ApiKey :=
  match findKey store key with
  | none => store
  | some kd =>
    setKeyStore store
      { kd with enabled := false, disabledReason := some reason, disabledAt := some now }

/-- `KeyPoolManager.retryWithFreshKey`: identical selection restricted to
enabled records other than `excludeKey`. -/
def retryWithFreshKey (cfg : Option KeyPoolConfig) (now : Nat)
    (store : List ApiKey) (excludeKey : String) : Except String (String × List ApiKey) :=
  let enabledKeys := store.filter (fun k => k.enabled && k.key != excludeKey)
  if enabledKeys.isEmpty then .error "没有可用的 API keys"
  else
    let algorithm := jsOrStr (cfg.map (·.currentAlgorithm)) "round-robin"
    match selectByAlgorithm algorithm enabledKeys with
    | none => .error "无法选择 API key"
    | some sel =>
      if sel.rateLimit.rpm ≤ sel.rateLimit.current then
        .error "所有可用 key 的速率限制已超出"
      else
        let updated := bumpSelected now sel
        .ok (updated.key, setKeyStore store updated)

/-! ### Error transformer (`middleware/error.ts`, `config/error.ts`) -/

/-- Upstream error payloads, modeled by the fields the relay reads or
writes: JSON objects are represented by their `code`, `message` and
`requestId` fields; any non-object payload (`typeof !== 'object'`) is
carried opaquely. -/
inductive ErrVal where
  | obj (code : Option String) (message : Option String) (requestId : Option String)
  | nonObj (s : String)
  deriving DecidableEq, Repr

/-- `ErrorTransformRule.statusCode`: a number, a number array, or `'*'`. -/
inductive StatusMatcher where
  | exact (n : Nat)
  | set (l : List Nat)
  | wildcard
  deriving DecidableEq, Repr

/-- `ErrorTransformRule` of `types/error.ts`. -/
structure ErrorTransformRule where
  statusCode : StatusMatcher
  message : Option String := none
  transformedStatusCode : Option Nat := none
  transform : Option (ErrVal → ErrVal) := none

/-- `MessageTransformConfig` of `types/error.ts`. -/
structure MessageTransformConfig where
  enabled : Bool
  rules : List ErrorTransformRule

/-- `TransformationConfig` of `types/error.ts` (the optional `response`
table is never read by the source and is omitted). -/
structure TransformationConfig where
  error : MessageTransformConfig

/-- The match test of `transformError`: wildcard, exact equality, or
membership in a status array. -/
def ruleMatches (r : ErrorTransformRule) (status : Nat) : Bool :=
  match r.statusCode with
  | .wildcard => true
  | .exact n => n == status
  | .set l => l.contains status

/-- `typeof transformedError === 'object'`. -/
def isObjVal : ErrVal → Bool
  | .obj _ _ _ => true
  | .nonObj _ => false

/-- `transformedError.message = rule.message` on an object payload. -/
def setMessageField (v : ErrVal) (m : String) : ErrVal :=
  match v with
  | .obj c _ r => .obj c (some m) r
  | x => x

/-- JavaScript truthiness of `rule.message`. -/
def msgTruthy : Option String → Bool
  | none => false
  | some m => m != ""

/-- The rule loop of `transformError`: first matching rule applies its
transform (identity if none), the status override if present, and the
message override when the transformed payload is an object. -/
def applyRules (error : ErrVal) (status : Nat) : List ErrorTransformRule → ErrVal × Nat
  | [] => (error, status)
  | r :: rs =>
    if ruleMatches r status then
      let transformedError :=
        match r.transform with
        | some f => f error
        | none => error
      let transformedStatus := r.transformedStatusCode.getD status
      let finalError :=
        if msgTruthy r.message && isObjVal transformedError then
          setMessageField transformedError (r.message.getD "")
        else transformedError
      (finalError, transformedStatus)
    else applyRules error status rs

/-- `transformError` of `middleware/error.ts`. -/
def transformError (error : ErrVal) (status : Nat) (config : TransformationConfig) :
    ErrVal × Nat :=
  if !config.error.enabled then (error, status)
  else applyRules error status config.error.rules

/-- `error.requestId` read by the 5xx rule of the default table. -/
def reqIdOf : ErrVal → Option String
  | .obj _ _ r => r
  | .nonObj _ => none

/-- `defaultTransformConfig` of `config/error.ts`. -/
def defaultTransformConfig : TransformationConfig :=
  { error :=
    { enabled := true
      rules :=
      [ { statusCode := .exact 401
          message := some "认证失败，请检查您的访问凭证"
          transform := some (fun _ => .obj (some "AUTH_ERROR") (some "认证失败，请检查您的访问凭证") none) }
      , { statusCode := .exact 400
          message := some "请求无效，请检查您的输入"
          transform := some (fun _ => .obj (some "BAD_REQUEST") (some "请求无效，请检查您的输入") none) }
      , { statusCode := .exact 403
          message := some "禁止访问，您没有权限"
          transform := some (fun _ => .obj (some "FORBIDDEN") (some "禁止访问，您没有权限") none) }
      , { statusCode := .exact 404
          message := some "请求的资源未找到"
          transform := some (fun _ => .obj (some "NOT_FOUND") (some "请求的资源未找到") none) }
      , { statusCode := .exact 429
          message := some "请求过于频繁，请稍后再试"
          transform := some (fun _ => .obj (some "TOO_MANY_REQUESTS") (some "请求过于频繁，请稍后再试") none) }
      , { statusCode := .set [500, 501, 502, 503, 504]
          message := some "服务暂时不可用，请稍后重试"
          transform := some (fun e => .obj (some "SERVICE_ERROR") (some "服务暂时不可用，请稍后重试") (reqIdOf e)) }
      , { statusCode := .wildcard
          transform := some (fun _ => .obj none (some "发生未知错误") none) }
      ] } }

/-! ### Upstream dispatch with bounded retry (`routes/chat.ts`, `sendRequest`) -/

/-- The `usage` object of an upstream JSON payload (`total_tokens` and
friends may be absent; the source reads them with `?? 0`). -/
structure UsageJs where
  total_tokens : Option Nat
  prompt_tokens : Option Nat
  completion_tokens : Option Nat
  deriving DecidableEq, Repr

/-- One upstream HTTP response, modeled by the fields the relay reads:
the status, the error body as JSON (per the spec the upstream returns JSON;
`detail` models `errorData.details?.detail`), and the `usage` object of a
successful non-streaming body. -/
structure UpResp where
  status : Nat
  detail : Option String
  errBody : ErrVal
  usage : Option UsageJs
  deriving DecidableEq, Repr

/-- `Response.ok` of `fetch`: status in `[200, 300)`. -/
def respOk (r : UpResp) : Bool := 200 ≤ r.status && r.status < 300

/-- The budget-exhaustion marker searched for in the 402 error detail. -/
def exhaustedMarker : List Char := "exhausted your budget".data

/-- `isKeyExhausted` of `sendRequest`: an HTTP 402 whose
`details.detail` contains the budget-exhaustion marker. -/
def isKeyExhausted (r : UpResp) : Bool :=
  r.status == 402 &&
    (match r.detail with
     | some d => containsSub exhaustedMarker d.data
     | none => false)

/-- `sendRequest` of `routes/chat.ts`.  `oracle n k` is the upstream
response of the fetch made at retry depth `n` with credential `k`.
Returns the outcome (`Except` models the thrown errors), the store after
any disable/reselect bookkeeping, and the trace of credentials actually
fetched with, in order. -/
def sendRequest (oracle : Nat → String → UpResp) (cfg : Option KeyPoolConfig)
    (now : Nat) (store : List ApiKey) (key : String) (retryAttempt : Nat) :
    Except String UpResp × List ApiKey × List String :=
  if 3 < retryAttempt then (.error "超过最大重试次数 3", store, [])
  else
    let resp := oracle retryAttempt key
    if respOk resp then (.ok resp, store, [key])
    else if isKeyExhausted resp then
      let store1 := disableKey store key ("余额耗尽: " ++ (resp.detail.getD "Payment Required")) now
      match retryWithFreshKey cfg now store1 key with
      | .error e => (.error e, store1, [key])
      | .ok (newKey, store2) =>
        let r := sendRequest oracle cfg now store2 newKey (retryAttempt + 1)
        (r.1, r.2.1, key :: r.2.2)
    else (.ok resp, store, [key])
termination_by 4 - retryAttempt
decreasing_by omega

/-! ### The chat-completion route handler (`routes/chat.ts`) -/

/-- A request message's `content`: a string, or an array of parts whose
`text` fields (possibly absent) are joined. -/
inductive MsgContent where
  | str (s : String)
  | arr (items : List (Option String))
  deriving DecidableEq, Repr

/-- One element of the request `messages` array. -/
structure Msg where
  role : String
  content : MsgContent
  name : Option String := none
  deriving DecidableEq, Repr

/-- The `ChatMessage` fed to the tokenizer. -/
structure ChatMessage where
  role : String
  content : String
  name : Option String
  deriving DecidableEq, Repr

/-- The per-message mapping before tokenization: `tool` becomes
`assistant`, array contents are joined via `item.text || ''`. -/
def toChatMessage (m : Msg) : ChatMessage :=
  { role := if m.role = "tool" then "assistant" else m.role
    content :=
      match m.content with
      | .str s => s
      | .arr items => String.join (items.map (fun i => i.getD ""))
    name := m.name }

/-- The request body fields the handler validates and branches on. -/
structure ChatBody where
  messages : Option (List Msg)
  model : Option String
  stream : Bool := false
  deriving DecidableEq, Repr

/-- The observable outcome of one request: HTTP status answered to the
client, the credential store afterwards, and the credentials dispatched
upstream with, in order. -/
structure HandlerOutcome where
  status : Nat
  pool : List ApiKey
  upstream : List String
  deriving DecidableEq, Repr

/-- The `data.usage` normalization of the non-streaming success path:
`total_tokens ?? 0` and friends. -/
def usageFromJs (u : UsageJs) : Usage3 :=
  { totalTokens := u.total_tokens.getD 0
    promptTokens := u.prompt_tokens.getD 0
    completionTokens := u.completion_tokens.getD 0 }

/-- The `POST /chat/completions` handler of `routes/chat.ts`, up to the
observable outcome: validation (400), credential acquisition (429), bounded
retry dispatch (503 when retries are exhausted), error transformation for
non-2xx responses, and usage recording on the non-streaming success path.
`tokenCount` models the external `encodeChat(...).length` tokenizer.
Response-body rewriting (the think-tag transforms) is modeled separately
and does not affect these fields. -/
def handleChat (tokenCount : List ChatMessage → Nat) (oracle : Nat → String → UpResp)
    (cfg : Option KeyPoolConfig) (now : Nat) (store : List ApiKey)
    (body : ChatBody) : HandlerOutcome :=
  match body.messages with
  | none => ⟨400, store, []⟩
  | some msgs =>
    if msgs.isEmpty then ⟨400, store, []⟩
    else
      match body.model with
      | none => ⟨400, store, []⟩
      | some mdl =>
        if mdl = "" then ⟨400, store, []⟩
        else
          let chatMessages := msgs.map toChatMessage
          if 128000 < tokenCount chatMessages then ⟨400, store, []⟩
          else
            match getKey cfg now store none with
            | .error _ => ⟨429, store, []⟩
            | .ok (apiKey, store1) =>
              match sendRequest oracle cfg now store1 apiKey 0 with
              | (.error _, store2, tr) => ⟨503, store2, tr⟩
              | (.ok resp, store2, tr) =>
                if respOk resp then
                  let finalKey := tr.getLastD apiKey
                  if body.stream then ⟨200, store2, tr⟩
                  else
                    match resp.usage with
                    | some u => ⟨200, updateKeyStats store2 finalKey (usageFromJs u), tr⟩
                    | none => ⟨200, store2, tr⟩
                else
                  let t := transformError resp.errBody resp.status defaultTransformConfig
                  ⟨t.2, store2, tr⟩

/-! ### Think-tag markers and model detection (`routes/chat.ts`) -/

/-- The opening think marker. -/
def openThink : List Char := "<think>".data

/-- The closing think marker. -/
def closeThink : List Char := "</think>".data

/-- First model-name marker tested by `isSpecialThinkingModel`. -/
def qwqMarker : List Char := "Qwen/QwQ-32B".data

/-- Second model-name marker tested by `isSpecialThinkingModel`. -/
def qwqFastMarker : List Char := "Qwen/QwQ-32B-fast".data

/-- `isSpecialThinkingModel` of `routes/chat.ts`: the thinking-default
model family. -/
def isSpecialThinkingModel (modelName : List Char) : Bool :=
  containsSub qwqMarker modelName || containsSub qwqFastMarker modelName

/-! ### Streaming transform (`routes/chat.ts`, `transformStream`) -/

/-- A delta of one streamed choice, by the fields the transform touches. -/
structure DeltaJ where
  content : Option (List Char)
  reasoning_content : Option (List Char)
  deriving DecidableEq, Repr

/-- One element of a chunk's `choices` array. -/
structure StreamChoiceJ where
  delta : DeltaJ
  deriving DecidableEq, Repr

/-- A parsed `data:` frame (`ChatCompletionChunk`), by the fields the
transform reads. -/
structure ChunkJ where
  model : Option (List Char)
  choices : List StreamChoiceJ
  usage : Option UsageJs
  deriving DecidableEq, Repr

/-- The external `JSON.parse` / `JSON.stringify` pair applied to `data:`
payloads, abstracted as an external dependency: `parse` yields `none` when
`JSON.parse` throws. -/
structure JsonCodec where
  parse : List Char → Option ChunkJ
  stringify : ChunkJ → List Char

/-- The think-tag handling of one delta `content` in the streaming
transform; returns the updated `isProcessingReasoning` flag and delta. -/
def processDelta (isSpecialModel : Bool) (flag : Bool) (d : DeltaJ) : Bool × DeltaJ :=
  match d.content with
  | none => (flag, d)
  | some content =>
    if containsSub closeThink content then
      let parts := splitOnList closeThink content
      let thinkContent := parts.getD 0 []
      let afterThink := parts.getD 1 []
      let d1 := if trimL thinkContent ≠ [] then { d with reasoning_content := some thinkContent } else d
      let d2 :=
        if trimL afterThink ≠ [] then { d1 with content := some afterThink }
        else { d1 with content := none }
      (false, d2)
    else if !isSpecialModel && containsSub openThink content then
      let parts := splitOnList openThink content
      let beforeThink := parts.getD 0 []
      let thinkContent := parts.getD 1 []
      let d1 :=
        if trimL beforeThink ≠ [] then { d with content := some beforeThink }
        else { d with content := none }
      let d2 := if trimL thinkContent ≠ [] then { d1 with reasoning_content := some thinkContent } else d1
      (true, d2)
    else if flag then
      (flag, { d with content := none, reasoning_content := some content })
    else (flag, d)

/-- The cross-frame mutable state of the streaming transform other than the
byte buffer: the `isProcessingReasoning` flag and the running usage
counters.  (`chunkCount` and the timing fields feed only the log events and
are omitted.) -/
structure SSEState where
  isProcessingReasoning : Bool
  totalTokens : Nat
  promptTokens : Nat
  completionTokens : Nat
  deriving DecidableEq, Repr

/-- Processing of one parsed `data:` chunk: track usage when present, then
rewrite the first choice's delta. -/
def processDataChunk (bodyModel : List Char) (ps : SSEState) (data : ChunkJ) :
    SSEState × ChunkJ :=
  let ps1 :=
    match data.usage with
    | some u =>
      { ps with
        totalTokens := u.total_tokens.getD 0
        promptTokens := u.prompt_tokens.getD 0
        completionTokens := u.completion_tokens.getD 0 }
    | none => ps
  match data.choices with
  | [] => (ps1, data)
  | choice :: restChoices =>
    let modelForCheck :=
      match data.model with
      | some m => if m = [] then bodyModel else m
      | none => bodyModel
    let isSpecialModel := isSpecialThinkingModel modelForCheck
    let r := processDelta isSpecialModel ps1.isProcessingReasoning choice.delta
    ({ ps1 with isProcessingReasoning := r.1 },
     { data with choices := { choice with delta := r.2 } :: restChoices })

/-- The `'data: '` frame marker. -/
def dataMarker : List Char := "data: ".data

/-- The `'data: [DONE]'` terminator frame. -/
def doneMessage : List Char := "data: [DONE]".data

/-- The loop body of the streaming transform on one complete frame:
whitespace-only frames are dropped, `data: [DONE]` and non-`data` frames
are forwarded with the `\n\n` terminator restored, `data:` frames are
parsed, rewritten, and re-serialized — or forwarded unchanged when parsing
fails. -/
def processMessage (codec : JsonCodec) (bodyModel : List Char) (ps : SSEState)
    (msg : List Char) : SSEState × List Char :=
  let trimmed := trimL msg
  if trimmed = [] then (ps, [])
  else if trimmed = doneMessage then (ps, msg ++ ['\n', '\n'])
  else if startsWithL dataMarker trimmed then
    match codec.parse (trimmed.drop 6) with
    | some data =>
      let r := processDataChunk bodyModel ps data
      (r.1, dataMarker ++ codec.stringify r.2 ++ ['\n', '\n'])
    | none => (ps, msg ++ ['\n', '\n'])
  else (ps, msg ++ ['\n', '\n'])

/-- Sequential processing of the complete frames of one invocation,
concatenating the emitted text. -/
def processMessages (codec : JsonCodec) (bodyModel : List Char) (ps : SSEState) :
    List (List Char) → SSEState × List Char
  | [] => (ps, [])
  | m :: ms =>
    let r1 := processMessage codec bodyModel ps m
    let r2 := processMessages codec bodyModel r1.1 ms
    (r2.1, r1.2 ++ r2.2)

/-- The full mutable state of the streaming transform: the carry-over text
buffer plus `SSEState`. -/
structure TState where
  buffer : List Char
  ps : SSEState
  deriving DecidableEq, Repr

/-- One invocation of the streaming transform at text level: append the
decoded text to the buffer, split on `\n\n`, keep the trailing incomplete
fragment, process every complete frame. -/
def transformStreamText (codec : JsonCodec) (bodyModel : List Char) (st : TState)
    (text : List Char) : TState × List Char :=
  let parts := splitSep (st.buffer ++ text)
  let msgs := parts.dropLast
  let newBuffer := parts.getLastD []
  let r := processMessages codec bodyModel st.ps msgs
  (⟨newBuffer, r.1⟩, r.2)

/-- The `flush` callback: any non-whitespace buffered remainder is emitted
verbatim (without a terminator). -/
def flushStream (st : TState) : List Char :=
  if trimL st.buffer ≠ [] then st.buffer else []

/-- The initial transform state of one streaming response:
`isProcessingReasoning` starts `true` exactly for thinking-default models. -/
def initialTState (bodyModel : List Char) : TState :=
  ⟨[], ⟨isSpecialThinkingModel bodyModel, 0, 0, 0⟩⟩

/-! ### Byte level: `TextDecoder` / `TextEncoder` per invocation -/

/-- U+FFFD, the replacement character. -/
def replChar : Char := Char.ofNat 0xFFFD

/-- UTF-8 encoding of one scalar value (`TextEncoder`). -/
def utf8EncodeChar (c : Char) : List Nat :=
  let n := c.toNat
  if n < 0x80 then [n]
  else if n < 0x800 then [0xC0 + n / 64, 0x80 + n % 64]
  else if n < 0x10000 then [0xE0 + n / 4096, 0x80 + (n / 64) % 64, 0x80 + n % 64]
  else [0xF0 + n / 262144, 0x80 + (n / 4096) % 64, 0x80 + (n / 64) % 64, 0x80 + n % 64]

/-- `TextEncoder().encode` over a text. -/
def utf8Encode (s : List Char) : List Nat := (s.map utf8EncodeChar).flatten

/-- A UTF-8 continuation byte. -/
def isCont (b : Nat) : Bool := 0x80 ≤ b && b < 0xC0

/-- The step-bounded core of `decodeTD`: `fuel` only bounds the number of
decode steps (each step consumes at least one byte, so `fuel = bs.length`
never runs out); the byte handling is WHATWG UTF-8 decoding with U+FFFD
substitution for malformed or truncated sequences, invalid bytes being
reconsumed. -/
def decodeTDF : Nat → List Nat → List Char
  | 0, _ => []
  | _ + 1, [] => []
  | _ + 1, [b] =>
    if b < 0x80 then [Char.ofNat b] else [replChar]
  | fuel + 1, b :: b2 :: rest2 =>
    if b < 0x80 then Char.ofNat b :: decodeTDF fuel (b2 :: rest2)
    else if b < 0xC2 then replChar :: decodeTDF fuel (b2 :: rest2)
    else if b < 0xE0 then
      if isCont b2 then Char.ofNat ((b - 0xC0) * 64 + (b2 - 0x80)) :: decodeTDF fuel rest2
      else replChar :: decodeTDF fuel (b2 :: rest2)
    else if b < 0xF0 then
      if (if b = 0xE0 then 0xA0 else 0x80) ≤ b2 && b2 ≤ (if b = 0xED then 0x9F else 0xBF) then
        match rest2 with
        | [] => [replChar]
        | b3 :: rest3 =>
          if isCont b3 then
            Char.ofNat ((b - 0xE0) * 4096 + (b2 - 0x80) * 64 + (b3 - 0x80)) :: decodeTDF fuel rest3
          else replChar :: decodeTDF fuel (b3 :: rest3)
      else replChar :: decodeTDF fuel (b2 :: rest2)
    else if b < 0xF5 then
      if (if b = 0xF0 then 0x90 else 0x80) ≤ b2 && b2 ≤ (if b = 0xF4 then 0x8F else 0xBF) then
        match rest2 with
        | [] => [replChar]
        | b3 :: rest3 =>
          if isCont b3 then
            match rest3 with
            | [] => [replChar]
            | b4 :: rest4 =>
              if isCont b4 then
                Char.ofNat ((b - 0xF0) * 262144 + (b2 - 0x80) * 4096 + (b3 - 0x80) * 64 + (b4 - 0x80)) :: decodeTDF fuel rest4
              else replChar :: decodeTDF fuel (b4 :: rest4)
          else replChar :: decodeTDF fuel (b3 :: rest3)
      else replChar :: decodeTDF fuel (b2 :: rest2)
    else replChar :: decodeTDF fuel (b2 :: rest2)

/-- `new TextDecoder().decode(chunk)` — a fresh, non-streaming decoder per
invocation, exactly as the source constructs it. -/
def decodeTD (bs : List Nat) : List Char := decodeTDF bs.length bs

/-- One invocation of the streaming transform at byte level: the source
decodes each incoming chunk with a fresh `TextDecoder` and encodes each
emitted string with `TextEncoder`. -/
def transformStreamBytes (codec : JsonCodec) (bodyModel : List Char) (st : TState)
    (chunk : List Nat) : TState × List Nat :=
  let r := transformStreamText codec bodyModel st (decodeTD chunk)
  (r.1, utf8Encode r.2)

/-- A degenerate codec (every payload fails to parse): frames that are not
`data:` frames never consult the codec, so concrete computations on such
frames are codec-independent. -/
def trivialCodec : JsonCodec :=
  { parse := fun _ => none, stringify := fun _ => [] }

/-! ### Non-streaming think-tag transform (`routes/chat.ts`) -/

/-- The thinking-default branch of the non-streaming transform: with a
closing marker, the (trimmed) text before it becomes reasoning and the
(trimmed) part after it becomes content; without one, content empties and
the whole (trimmed) text becomes reasoning.  Returns
`(content, reasoning_content)`. -/
def specialModelTransform (content : List Char) : List Char × List Char :=
  if containsSub closeThink content then
    let parts := splitOnList closeThink content
    (trimL (parts.getD 1 []), trimL (parts.getD 0 []))
  else ([], trimL content)

/-- One attempt of the regex `/<think>([\s\S]*?)<\/think>/` at the current
position: the lazy group stops at the first closing marker. -/
def tryMatchAt (s : List Char) : Option (List Char × List Char) :=
  if startsWithL openThink s then splitFirst closeThink (s.drop openThink.length)
  else none

/-- The regex engine's left-to-right scan for the first match of
`/<think>([\s\S]*?)<\/think>/`: returns `(before, inner, after)`. -/
def findThinkMatch : List Char → Option (List Char × List Char × List Char)
  | [] => none
  | c :: rest =>
    match tryMatchAt (c :: rest) with
    | some (inner, post) => some ([], inner, post)
    | none =>
      match findThinkMatch rest with
      | some (pre, ip) => some (c :: pre, ip)
      | none => none

/-- The regular-model branch of the non-streaming transform: extract the
first complete marker pair into reasoning (trimmed) and strip it from the
content (trimmed); without a complete pair the content is untouched and no
reasoning field is produced. -/
def regularModelTransform (content : List Char) : List Char × Option (List Char) :=
  match findThinkMatch content with
  | none => (content, none)
  | some (pre, inner, post) => (trimL (pre ++ post), some (trimL inner))

/-- The whole per-choice non-streaming transform: skipped for falsy (empty)
content, thinking-default branch for the special model family, regex branch
otherwise.  Returns the content field and the optional reasoning field. -/
def nonStreamChoiceTransform (bodyModel : List Char) (content : List Char) :
    List Char × Option (List Char) :=
  if content = [] then (content, none)
  else if isSpecialThinkingModel bodyModel then
    let r := specialModelTransform content
    (r.1, some r.2)
  else regularModelTransform content

/-! ### Concrete values used by witnesses and counterexamples -/

/-- A sample enabled credential with capacity. -/
def sampleKeyA : ApiKey :=
  { key := "a"
    rateLimit := { rpm := 60, current := 0, lastReset := 0 }
    usage := { totalTokens := 0, promptTokens := 0, completionTokens := 0
               totalRequests := 0, lastUsed := 0 }
    algorithm := "round-robin"
    enabled := true }

/-- A second enabled credential, used later than `sampleKeyA`. -/
def sampleKeyB : ApiKey :=
  { sampleKeyA with key := "b", usage := { sampleKeyA.usage with lastUsed := 10 } }

/-- A disabled credential. -/
def sampleKeyDisabled : ApiKey := { sampleKeyA with key := "d", enabled := false }

/-- An enabled credential that has used up its window. -/
def sampleKeyLimited : ApiKey :=
  { sampleKeyA with key := "l", rateLimit := { rpm := 2, current := 2, lastReset := 0 } }

/-- An upstream oracle answering 404 with an object body. -/
def oracle404 : Nat → String → UpResp :=
  fun _ _ => { status := 404, detail := none, errBody := .obj none none none, usage := none }

/-- An upstream oracle answering 402 budget-exhaustion every time. -/
def oracle402 : Nat → String → UpResp :=
  fun _ _ =>
    { status := 402, detail := some "you have exhausted your budget"
      errBody := .obj none none none, usage := none }

/-- An upstream oracle answering 402 budget-exhaustion first, then 200. -/
def oracle402then200 : Nat → String → UpResp :=
  fun n _ =>
    if n = 0 then
      { status := 402, detail := some "you have exhausted your budget"
        errBody := .obj none none none, usage := none }
    else { status := 200, detail := none, errBody := .obj none none none, usage := none }

/-- A sample valid request body. -/
def sampleBody : ChatBody :=
  { messages := some [{ role := "user", content := .str "hi" }], model := some "m" }

/-- A sample tokenizer model (constant count). -/
def sampleTokenCount : List ChatMessage → Nat := fun _ => 1

/-- The bytes of the SSE frame `": é\n\n"` (the é is the two bytes C3 A9). -/
def cexFrameBytes : List Nat := [58, 32, 195, 169, 10, 10]

/-- The first three bytes of `cexFrameBytes`: the cut falls inside the é. -/
def cexChunk1 : List Nat := [58, 32, 195]

/-- The remaining bytes of `cexFrameBytes`. -/
def cexChunk2 : List Nat := [169, 10, 10]

/-- The request model name used by the streaming counterexample. -/
def cexModel : List Char := "m".data

/-! ## Theorems -/

/-! ### Store and selection lemmas -/

theorem minByNat_mem (f : ApiKey → Nat) (k : ApiKey) (ks : List ApiKey) :
    minByNat f k ks ∈ k :: ks := by
  induction ks generalizing k with
  | nil => simp [minByNat]
  | cons x xs ih =>
    simp only [minByNat, List.foldl_cons]
    by_cases hx : f x < f k
    · have h := ih x
      simp only [minByNat] at h
      simp only [if_pos hx]
      rcases List.mem_cons.1 h with h1 | h1
      · simp [h1]
      · simp [List.mem_cons, h1]
    · have h := ih k
      simp only [minByNat] at h
      simp only [if_neg hx]
      rcases List.mem_cons.1 h with h1 | h1
      · simp [h1]
      · simp [List.mem_cons, h1]

theorem selectByAlgorithm_mem (alg : String) (l : List ApiKey) (s : ApiKey)
    (h : selectByAlgorithm alg l = some s) : s ∈ l := by
  match l with
  | [] => simp [selectByAlgorithm] at h
  | k :: ks =>
    simp only [selectByAlgorithm] at h
    split_ifs at h <;> [skip; skip; skip; skip] <;>
      first
        | (injection h with h; exact h ▸ minByNat_mem _ k ks)
        | (injection h with h; exact h ▸ List.mem_cons_self k ks)

theorem findKey_setKeyStore_self (store : List ApiKey) (k : ApiKey) :
    findKey (setKeyStore store k) k.key = some k := by
  unfold setKeyStore findKey
  split
  · next hany =>
    induction store with
    | nil => simp at hany
    | cons x xs ih =>
      simp only [List.map_cons, List.find?_cons]
      by_cases hx : x.key == k.key
      · simp [hx]
      · simp only [hx, if_neg, Bool.false_eq_true, not_false_eq_true, if_false]
        simp only [List.any_cons, hx, Bool.false_or] at hany
        simpa [hx] using ih hany
  · next hany =>
    induction store with
    | nil => simp
    | cons x xs ih =>
      simp only [List.any_cons, Bool.or_eq_true, not_or] at hany
      simp only [List.cons_append, List.find?_cons]
      have hx : (x.key == k.key) = false := by
        cases hxe : x.key == k.key
        · rfl
        · exact absurd hxe hany.1
      simp only [hx, Bool.false_eq_true, if_false]
      exact ih hany.2

theorem findKey_setKeyStore_other (store : List ApiKey) (k : ApiKey) (q : String)
    (hq : k.key ≠ q) : findKey (setKeyStore store k) q = findKey store q := by
  have h1 : (k.key == q) = false := by simpa using hq
  unfold setKeyStore findKey
  split
  · next hany =>
    clear hany
    induction store with
    | nil => rfl
    | cons x xs ih =>
      simp only [List.map_cons, List.find?_cons]
      by_cases hx : x.key == k.key
      · have hxk : x.key = k.key := by simpa using hx
        have hxq : (x.key == q) = false := by
          rw [hxk]; exact h1
        simp only [if_pos hx, h1, hxq, Bool.false_eq_true, if_false]
        exact ih
      · simp only [if_neg hx]
        by_cases hxq : x.key == q
        · simp [hxq]
        · simp only [hxq, Bool.false_eq_true, if_false]
          exact ih
  · rw [List.find?_append]
    cases h : List.find? (fun x => x.key == q) store
    · simp [h1]
    · simp

theorem findKey_key_eq (store : List ApiKey) (q : String) (r : ApiKey)
    (h : findKey store q = some r) : r.key = q := by
  have := List.find?_some h
  simpa using this

theorem findKey_mem (store : List ApiKey) (q : String) (r : ApiKey)
    (h : findKey store q = some r) : r ∈ store :=
  List.mem_of_find?_eq_some h

theorem findKey_of_mem_nodup (store : List ApiKey) (r : ApiKey)
    (hd : KeysNodup store) (hm : r ∈ store) : findKey store r.key = some r := by
  induction store with
  | nil => simp at hm
  | cons x xs ih =>
    unfold KeysNodup at hd
    simp only [List.map_cons, List.nodup_cons] at hd
    rcases List.mem_cons.1 hm with h1 | h1
    · subst h1; simp [findKey]
    · have hx : (x.key == r.key) = false := by
        by_contra hc
        have : x.key = r.key := by
          cases hxe : x.key == r.key
          · exact absurd hxe hc
          · simpa using hxe
        exact hd.1 (this ▸ List.mem_map_of_mem (·.key) h1)
      unfold findKey
      simp only [List.find?_cons, hx, Bool.false_eq_true, if_false]
      exact ih hd.2 h1

theorem keysNodup_setKeyStore (store : List ApiKey) (k : ApiKey)
    (hd : KeysNodup store) : KeysNodup (setKeyStore store k) := by
  unfold setKeyStore
  split
  · unfold KeysNodup at hd ⊢
    have : (store.map fun x => if x.key == k.key then k else x).map (·.key) =
        store.map (·.key) := by
      simp only [List.map_map]
      apply List.map_congr_left
      intro x _
      simp only [Function.comp_apply]
      by_cases hx : x.key == k.key
      · have : x.key = k.key := by simpa using hx
        simp [hx, this]
      · simp [hx]
    rw [this]; exact hd
  · next hany =>
    unfold KeysNodup at hd ⊢
    simp only [List.map_append, List.map_cons, List.map_nil]
    rw [List.nodup_append]
    refine ⟨hd, List.nodup_singleton _, ?_⟩
    intro a ha
    simp only [List.mem_singleton]
    intro hb
    rcases List.mem_map.1 ha with ⟨x, hx, hxa⟩
    apply hany
    have : (x.key == k.key) = true := by rw [hxa, hb]; simp
    exact List.any_eq_true.2 ⟨x, hx, this⟩

/-! ### C9: the rate-limit window sweep -/

/-- C9: the periodic sweep maps every credential through the per-record
reset; a record is reset (currentCount zeroed, windowStart restamped)
exactly when at least 60000 ms have elapsed since its last reset, is left
entirely unchanged otherwise, and a record just reset is not reset again by
a sweep less than 60000 ms later. -/
theorem resetRateLimits_window (now : Nat) (store : List ApiKey) :
    (resetRateLimits now store = store.map (resetLimitOne now)) ∧
    (∀ k : ApiKey, 60000 ≤ now - k.rateLimit.lastReset →
      resetLimitOne now k =
        { k with rateLimit := { k.rateLimit with current := 0, lastReset := now } }) ∧
    (∀ k : ApiKey, now - k.rateLimit.lastReset < 60000 → resetLimitOne now k = k) ∧
    (∀ (k : ApiKey) (later : Nat), 60000 ≤ now - k.rateLimit.lastReset →
      later - now < 60000 →
      resetLimitOne later (resetLimitOne now k) = resetLimitOne now k) := by
  refine ⟨rfl, ?_, ?_, ?_⟩
  · intro k h
    simp [resetLimitOne, h]
  · intro k h
    simp [resetLimitOne, Nat.not_le.2 h]
  · intro k later h hlt
    simp only [resetLimitOne, if_pos h]
    simp [Nat.not_le.2 hlt]

/-- Witness for C9 at concrete times: a record last reset at 0 is reset at
60000, and the sweep at 119999 leaves the reset record unchanged. -/
theorem resetRateLimits_window_witness :
    resetLimitOne 60000 sampleKeyA =
      { sampleKeyA with rateLimit := { sampleKeyA.rateLimit with current := 0, lastReset := 60000 } } ∧
    resetLimitOne 59999 sampleKeyA = sampleKeyA ∧
    resetLimitOne 119999 (resetLimitOne 60000 sampleKeyA) = resetLimitOne 60000 sampleKeyA :=
  ⟨(resetRateLimits_window 60000 []).2.1 sampleKeyA (by decide),
   (resetRateLimits_window 59999 []).2.2.1 sampleKeyA (by decide),
   (resetRateLimits_window 60000 []).2.2.2 sampleKeyA 119999 (by decide) (by decide)⟩

/-! ### C10: `addKey` with a supplied rpm of 0 -/

/-- C10: `addKey`'s rpm fallback tests JavaScript falsiness, not absence: a
supplied rpm of 0 is silently replaced by the pool config's `defaultRpm`
(when that is itself non-zero), the record is stored with that value, and
any non-zero supplied rpm is stored as given without positivity
validation. -/
theorem addKey_zero_rpm (cfg : KeyPoolConfig) (now : Nat) (store : List ApiKey)
    (key : String) (hd : cfg.defaultRpm ≠ 0) :
    (newApiKey (some cfg) now key (some 0)).rateLimit.rpm = cfg.defaultRpm ∧
    findKey (addKey (some cfg) now store key (some 0)) key =
      some (newApiKey (some cfg) now key (some 0)) ∧
    (∀ r : Nat, r ≠ 0 → (newApiKey (some cfg) now key (some r)).rateLimit.rpm = r) := by
  refine ⟨?_, ?_, ?_⟩
  · simp [newApiKey, jsOrNat, hd]
  · have h := findKey_setKeyStore_self store (newApiKey (some cfg) now key (some 0))
    simpa [addKey, newApiKey] using h
  · intro r hr
    simp [newApiKey, jsOrNat, hr]

/-- Witness for C10: with `defaultRpm = 42`, adding a key with rpm 0 stores
rpm 42, and adding with rpm 7 stores rpm 7. -/
theorem addKey_zero_rpm_witness :
    (newApiKey (some ⟨"round-robin", 42⟩) 5 "k" (some 0)).rateLimit.rpm = 42 ∧
    findKey (addKey (some ⟨"round-robin", 42⟩) 5 [] "k" (some 0)) "k" =
      some (newApiKey (some ⟨"round-robin", 42⟩) 5 "k" (some 0)) ∧
    (newApiKey (some ⟨"round-robin", 42⟩) 5 "k" (some 7)).rateLimit.rpm = 7 :=
  ⟨(addKey_zero_rpm ⟨"round-robin", 42⟩ 5 [] "k" (by decide)).1,
   (addKey_zero_rpm ⟨"round-robin", 42⟩ 5 [] "k" (by decide)).2.1,
   (addKey_zero_rpm ⟨"round-robin", 42⟩ 5 [] "k" (by decide)).2.2 7 (by decide)⟩

/-! ### C1: selection never returns a disabled credential -/

/-- C1: `getKey` without an explicit key fails with the pool-empty message
when the store is empty, fails with the none-enabled message when records
exist but none is enabled, and any credential it returns belongs to the
enabled subset of the store. -/
theorem getKey_never_disabled (cfg : Option KeyPoolConfig) (now : Nat)
    (store : List ApiKey) :
    (store = [] → getKey cfg now store none = .error "No API keys available in the pool") ∧
    (store ≠ [] → store.filter (·.enabled) = [] →
      getKey cfg now store none = .error "No enabled API keys available in the pool") ∧
    (∀ (k : String) (st1 : List ApiKey), getKey cfg now store none = .ok (k, st1) →
      ∃ a ∈ store, a.enabled = true ∧ a.key = k) := by
  refine ⟨?_, ?_, ?_⟩
  · intro h; subst h; rfl
  · intro h1 h2
    have he : store.isEmpty = false := by
      cases store
      · exact absurd rfl h1
      · rfl
    unfold getKey
    simp [he, h2]
  · intro k st1 h
    unfold getKey at h
    by_cases he : store.isEmpty
    · simp [he] at h
    · simp only [he, Bool.false_eq_true, if_false] at h
      by_cases hf : (store.filter (·.enabled)).isEmpty
      · simp [hf] at h
      · simp only [hf, Bool.false_eq_true, if_false] at h
        cases hsel : selectByAlgorithm (jsOrStr (Option.map (·.currentAlgorithm) cfg)
            "round-robin") (store.filter (·.enabled)) with
        | none => rw [hsel] at h; simp at h
        | some sel =>
          rw [hsel] at h
          simp only at h
          by_cases hr : sel.rateLimit.rpm ≤ sel.rateLimit.current
          · simp [hr] at h
          · simp only [hr, if_false] at h
            have hk : (bumpSelected now sel).key = k := by
              cases h1 : h
              rfl
            have hm := selectByAlgorithm_mem _ _ _ hsel
            have hmem := List.mem_filter.1 hm
            refine ⟨sel, hmem.1, by simpa using hmem.2, ?_⟩
            rw [← hk]; rfl

/-- Witness for C1: the empty pool, an all-disabled pool, and a successful
selection from an enabled pool. -/
theorem getKey_never_disabled_witness :
    getKey none 5 ([] : List ApiKey) none = .error "No API keys available in the pool" ∧
    getKey none 5 [sampleKeyDisabled] none = .error "No enabled API keys available in the pool" ∧
    ∃ a ∈ [sampleKeyA], a.enabled = true ∧ a.key = "a" :=
  ⟨(getKey_never_disabled none 5 []).1 rfl,
   (getKey_never_disabled none 5 [sampleKeyDisabled]).2.1 (by decide) (by decide),
   (getKey_never_disabled none 5 [sampleKeyA]).2.2 "a"
     (setKeyStore [sampleKeyA] (bumpSelected 5 sampleKeyA)) (by rfl)⟩

/-! ### C4: rate-limit check on the algorithm's choice, no fallback -/

/-- C4: when the credential chosen by the configured algorithm is at or over
its rpm, `getKey` fails with the rate-limited message — no other candidate
is tried; on success the chosen record is returned with currentCount and
totalRequests incremented by one, lastUsedAt stamped to now, and the
updated record persisted in the returned store. -/
theorem getKey_rate_limit_check (cfg : Option KeyPoolConfig) (now : Nat)
    (store : List ApiKey) (sel : ApiKey)
    (hne : store.isEmpty = false)
    (hsel : selectByAlgorithm (jsOrStr (Option.map (·.currentAlgorithm) cfg) "round-robin")
      (store.filter (·.enabled)) = some sel) :
    (sel.rateLimit.rpm ≤ sel.rateLimit.current →
      getKey cfg now store none = .error "Rate limit exceeded for all available keys") ∧
    (sel.rateLimit.current < sel.rateLimit.rpm →
      getKey cfg now store none = .ok (sel.key, setKeyStore store (bumpSelected now sel)) ∧
      (bumpSelected now sel).rateLimit.current = sel.rateLimit.current + 1 ∧
      (bumpSelected now sel).usage.totalRequests = sel.usage.totalRequests + 1 ∧
      (bumpSelected now sel).usage.lastUsed = now ∧
      findKey (setKeyStore store (bumpSelected now sel)) sel.key =
        some (bumpSelected now sel)) := by
  have hf : (store.filter (·.enabled)).isEmpty = false := by
    cases hq : store.filter (·.enabled)
    · rw [hq] at hsel; simp [selectByAlgorithm] at hsel
    · rfl
  constructor
  · intro hr
    unfold getKey
    simp only [hne, Bool.false_eq_true, if_false, hf, hsel]
    simp [hr]
  · intro hr
    refine ⟨?_, rfl, rfl, rfl, ?_⟩
    · unfold getKey
      simp only [hne, Bool.false_eq_true, if_false, hf, hsel]
      simp only [Nat.not_le.2 hr, if_false]
      rfl
    · have h := findKey_setKeyStore_self store (bumpSelected now sel)
      simpa using h

/-- Witness for C4: a pool whose algorithmic choice is exhausted fails even
though another enabled credential has capacity, and a successful selection
persists the bumped record. -/
theorem getKey_rate_limit_check_witness :
    getKey none 5 [sampleKeyLimited, sampleKeyB] none =
      .error "Rate limit exceeded for all available keys" ∧
    getKey none 5 [sampleKeyA] none =
      .ok ("a", setKeyStore [sampleKeyA] (bumpSelected 5 sampleKeyA)) :=
  ⟨(getKey_rate_limit_check none 5 [sampleKeyLimited, sampleKeyB] sampleKeyLimited
      (by decide) (by decide)).1 (by decide),
   ((getKey_rate_limit_check none 5 [sampleKeyA] sampleKeyA (by decide) (by decide)).2
      (by decide)).1⟩

/-! ### C8: the error transformer -/

/-- C8: `transformError` with a disabled table is the identity on body and
status; rule scanning is first-match-wins (a matching head rule makes the
tail irrelevant, a non-matching head rule is skipped), a matching rule's
status override applies (input status when absent); with the default table,
status 404 produces the `NOT_FOUND` body and status 418 falls through to
the trailing wildcard body, each with the status preserved. -/
theorem transformError_contract (e : ErrVal) (s : Nat) :
    (∀ cfg : TransformationConfig, cfg.error.enabled = false →
      transformError e s cfg = (e, s)) ∧
    (∀ (r : ErrorTransformRule) (rs rs' : List ErrorTransformRule),
      ruleMatches r s = true → applyRules e s (r :: rs) = applyRules e s (r :: rs')) ∧
    (∀ (r : ErrorTransformRule) (rs : List ErrorTransformRule),
      ruleMatches r s = false → applyRules e s (r :: rs) = applyRules e s rs) ∧
    (∀ (r : ErrorTransformRule) (rs : List ErrorTransformRule),
      ruleMatches r s = true →
      (applyRules e s (r :: rs)).2 = r.transformedStatusCode.getD s) ∧
    (transformError e 404 defaultTransformConfig =
      (.obj (some "NOT_FOUND") (some "请求的资源未找到") none, 404)) ∧
    (transformError e 418 defaultTransformConfig =
      (.obj none (some "发生未知错误") none, 418)) := by
  refine ⟨?_, ?_, ?_, ?_, ?_, ?_⟩
  · intro cfg h
    unfold transformError
    simp [h]
  · intro r rs rs' h
    simp only [applyRules, h, if_true]
  · intro r rs h
    simp only [applyRules, h, Bool.false_eq_true, if_false]
  · intro r rs h
    simp only [applyRules, h, if_true]
  · rfl
  · rfl

/-- Witness for C8: the disabled table returns a 418 payload unchanged, a
matching 404 rule short-circuits independently of the tail, skipping and
status-override behavior at concrete rules. -/
theorem transformError_contract_witness :
    transformError (.nonObj "x") 418 { error := { enabled := false, rules := [] } } =
      (.nonObj "x", 418) ∧
    applyRules (.nonObj "x") 404 [{ statusCode := .exact 404 }, { statusCode := .wildcard }] =
      applyRules (.nonObj "x") 404 [{ statusCode := .exact 404 }] ∧
    applyRules (.nonObj "x") 404 [{ statusCode := .exact 401 }] =
      applyRules (.nonObj "x") 404 [] ∧
    (applyRules (.nonObj "x") 404 [{ statusCode := .exact 404, transformedStatusCode := some 410 }]).2 = 410 :=
  ⟨(transformError_contract (.nonObj "x") 418).1 _ rfl,
   (transformError_contract (.nonObj "x") 404).2.1
     { statusCode := .exact 404 } [{ statusCode := .wildcard }] [] (by decide),
   (transformError_contract (.nonObj "x") 404).2.2.1 { statusCode := .exact 401 } [] (by decide),
   (transformError_contract (.nonObj "x") 404).2.2.2.1
     { statusCode := .exact 404, transformedStatusCode := some 410 } [] (by decide)⟩

/-! ### C5: request validation touches nothing -/

/-- C5: whenever the messages array is missing or empty, the model field is
missing, or the token estimate exceeds 128000, the handler answers 400 with
the credential store unchanged and no upstream dispatch. -/
theorem handleChat_validation_400 (tokenCount : List ChatMessage → Nat)
    (oracle : Nat → String → UpResp) (cfg : Option KeyPoolConfig) (now : Nat)
    (store : List ApiKey) (body : ChatBody)
    (h : body.messages = none ∨ body.messages = some [] ∨ body.model = none ∨
      (∃ msgs, body.messages = some msgs ∧
        128000 < tokenCount (msgs.map toChatMessage))) :
    handleChat tokenCount oracle cfg now store body = ⟨400, store, []⟩ := by
  rcases h with h | h | h | ⟨msgs, hm, htok⟩
  · unfold handleChat
    rw [h]
  · unfold handleChat
    rw [h]
    rfl
  · unfold handleChat
    cases hm : body.messages with
    | none => rfl
    | some msgs =>
      by_cases hms : msgs.isEmpty
      · simp [hms]
      · simp only [hms, Bool.false_eq_true, if_false, h]
  · unfold handleChat
    rw [hm]
    by_cases hms : msgs.isEmpty
    · simp [hms]
    · simp only [hms, Bool.false_eq_true, if_false]
      cases hmo : body.model with
      | none => rfl
      | some mdl =>
        by_cases hme : mdl = ""
        · simp [hme]
        · simp only [hme, if_false, htok, if_true]

/-- Witness for C5: a minimal body with an empty messages array answers 400
and leaves a one-credential pool untouched. -/
theorem handleChat_validation_400_witness :
    handleChat sampleTokenCount oracle404 none 5 [sampleKeyA]
      { messages := some [], model := some "m" } = ⟨400, [sampleKeyA], []⟩ :=
  handleChat_validation_400 sampleTokenCount oracle404 none 5 [sampleKeyA]
    { messages := some [], model := some "m" } (Or.inr (Or.inl rfl))

/-! ### Lemmas on disable/reselect and the bounded retry loop -/

theorem retryWithFreshKey_ok (cfg : Option KeyPoolConfig) (now : Nat)
    (store : List ApiKey) (ex nk : String) (st2 : List ApiKey)
    (h : retryWithFreshKey cfg now store ex = .ok (nk, st2)) :
    ∃ sel : ApiKey, sel ∈ store ∧ sel.enabled = true ∧ sel.key ≠ ex ∧ nk = sel.key ∧
      st2 = setKeyStore store (bumpSelected now sel) := by
  unfold retryWithFreshKey at h
  by_cases he : (store.filter (fun k => k.enabled && k.key != ex)).isEmpty
  · simp [he] at h
  · simp only [he, Bool.false_eq_true, if_false] at h
    cases hsel : selectByAlgorithm (jsOrStr (Option.map (·.currentAlgorithm) cfg)
        "round-robin") (store.filter (fun k => k.enabled && k.key != ex)) with
    | none => rw [hsel] at h; simp at h
    | some sel =>
      rw [hsel] at h
      simp only at h
      by_cases hr : sel.rateLimit.rpm ≤ sel.rateLimit.current
      · simp [hr] at h
      · simp only [hr, if_false] at h
        have hmem := List.mem_filter.1 (selectByAlgorithm_mem _ _ _ hsel)
        have hb := hmem.2
        simp only [Bool.and_eq_true, bne_iff_ne, ne_eq] at hb
        cases h
        exact ⟨sel, hmem.1, hb.1, hb.2, rfl, rfl⟩

theorem keysNodup_disableKey (store : List ApiKey) (key reason : String) (now : Nat)
    (hd : KeysNodup store) : KeysNodup (disableKey store key reason now) := by
  unfold disableKey
  cases h : findKey store key with
  | none => exact hd
  | some kd => exact keysNodup_setKeyStore _ _ hd

theorem disableKey_findKey_other (store : List ApiKey) (key reason : String)
    (now : Nat) (q : String) (hq : key ≠ q) :
    findKey (disableKey store key reason now) q = findKey store q := by
  unfold disableKey
  cases h : findKey store key with
  | none => rfl
  | some kd =>
    have hk := findKey_key_eq store key kd h
    refine findKey_setKeyStore_other _ _ _ ?_
    show kd.key ≠ q
    rw [hk]; exact hq

theorem disableKey_findKey_self (store : List ApiKey) (key reason : String)
    (now : Nat) (kd : ApiKey) (h : findKey store key = some kd) :
    findKey (disableKey store key reason now) key =
      some { kd with
             enabled := false
             disabledReason := some reason
             disabledAt := some now } := by
  unfold disableKey
  rw [h]
  have hk := findKey_key_eq store key kd h
  have h2 := findKey_setKeyStore_self store
    { kd with
      enabled := false
      disabledReason := some reason
      disabledAt := some now }
  simpa [hk] using h2

theorem sendRequest_nodup (oracle : Nat → String → UpResp) (cfg : Option KeyPoolConfig)
    (now : Nat) (store : List ApiKey) (key : String) (ra : Nat)
    (hd : KeysNodup store) : KeysNodup (sendRequest oracle cfg now store key ra).2.1 := by
  rw [sendRequest]
  by_cases h1 : 3 < ra
  · simpa [h1] using hd
  · simp only [h1, if_false]
    by_cases hok : respOk (oracle ra key)
    · simpa [hok] using hd
    · by_cases hex : isKeyExhausted (oracle ra key)
      · simp only [hok, Bool.false_eq_true, if_false, hex, if_true]
        have hd1 : KeysNodup (disableKey store key
            ("余额耗尽: " ++ ((oracle ra key).detail.getD "Payment Required")) now) :=
          keysNodup_disableKey _ _ _ _ hd
        cases hr2 : retryWithFreshKey cfg now (disableKey store key
            ("余额耗尽: " ++ ((oracle ra key).detail.getD "Payment Required")) now) key with
        | error e => simpa [hr2] using hd1
        | ok p =>
          obtain ⟨nk, st2⟩ := p
          simp only [hr2]
          obtain ⟨sel, _, _, _, _, hst2⟩ := retryWithFreshKey_ok _ _ _ _ _ _ hr2
          have hd2 : KeysNodup st2 := by
            rw [hst2]; exact keysNodup_setKeyStore _ _ hd1
          exact sendRequest_nodup oracle cfg now st2 nk (ra + 1) hd2
      · simpa [hok, hex] using hd
termination_by 4 - ra

theorem sendRequest_preserves_disabled (oracle : Nat → String → UpResp)
    (cfg : Option KeyPoolConfig) (now : Nat) (store : List ApiKey) (key : String)
    (ra : Nat) (q : String) (r : ApiKey)
    (hd : KeysNodup store) (hf : findKey store q = some r) (hre : r.enabled = false)
    (hqk : q ≠ key) :
    findKey (sendRequest oracle cfg now store key ra).2.1 q = some r := by
  rw [sendRequest]
  by_cases h1 : 3 < ra
  · simpa [h1] using hf
  · simp only [h1, if_false]
    by_cases hok : respOk (oracle ra key)
    · simpa [hok] using hf
    · by_cases hex : isKeyExhausted (oracle ra key)
      · simp only [hok, Bool.false_eq_true, if_false, hex, if_true]
        have hf1 : findKey (disableKey store key
            ("余额耗尽: " ++ ((oracle ra key).detail.getD "Payment Required")) now) q = some r := by
          rw [disableKey_findKey_other store key _ now q (Ne.symm hqk)]
          exact hf
        have hd1 : KeysNodup (disableKey store key
            ("余额耗尽: " ++ ((oracle ra key).detail.getD "Payment Required")) now) :=
          keysNodup_disableKey _ _ _ _ hd
        cases hr2 : retryWithFreshKey cfg now (disableKey store key
            ("余额耗尽: " ++ ((oracle ra key).detail.getD "Payment Required")) now) key with
        | error e => simpa [hr2] using hf1
        | ok p =>
          obtain ⟨nk, st2⟩ := p
          simp only [hr2]
          obtain ⟨sel, hselmem, hselen, hselne, hnk, hst2⟩ :=
            retryWithFreshKey_ok _ _ _ _ _ _ hr2
          have hselq : sel.key ≠ q := by
            intro hcontra
            have hfind := findKey_of_mem_nodup _ sel hd1 hselmem
            rw [hcontra, hf1] at hfind
            have : sel = r := by cases hfind; rfl
            rw [this, hre] at hselen
            exact Bool.false_ne_true hselen
          have hf2 : findKey st2 q = some r := by
            rw [hst2, findKey_setKeyStore_other]
            · exact hf1
            · show (bumpSelected now sel).key ≠ q
              simpa using hselq
          have hd2 : KeysNodup st2 := by
            rw [hst2]; exact keysNodup_setKeyStore _ _ hd1
          have hqnk : q ≠ nk := by
            rw [hnk]; exact fun hh => hselq hh.symm
          exact sendRequest_preserves_disabled oracle cfg now st2 nk (ra + 1) q r
            hd2 hf2 hre hqnk
      · simpa [hok, hex] using hf
termination_by 4 - ra

theorem sendRequest_trace_len (oracle : Nat → String → UpResp)
    (cfg : Option KeyPoolConfig) (now : Nat) (store : List ApiKey) (key : String)
    (ra : Nat) : (sendRequest oracle cfg now store key ra).2.2.length ≤ 4 - ra := by
  rw [sendRequest]
  by_cases h1 : 3 < ra
  · simp [h1]
  · simp only [h1, if_false]
    by_cases hok : respOk (oracle ra key)
    · simp only [hok, if_true]
      simp only [List.length_cons, List.length_nil]
      omega
    · by_cases hex : isKeyExhausted (oracle ra key)
      · simp only [hok, Bool.false_eq_true, if_false, hex, if_true]
        cases hr2 : retryWithFreshKey cfg now (disableKey store key
            ("余额耗尽: " ++ ((oracle ra key).detail.getD "Payment Required")) now) key with
        | error e =>
          simp only [List.length_cons, List.length_nil]
          omega
        | ok p =>
          obtain ⟨nk, st2⟩ := p
          simp only [List.length_cons]
          have hrec := sendRequest_trace_len oracle cfg now st2 nk (ra + 1)
          omega
      · simp only [hok, Bool.false_eq_true, if_false, hex]
        simp only [List.length_cons, List.length_nil]
        omega
termination_by 4 - ra

theorem sendRequest_trace_head (oracle : Nat → String → UpResp)
    (cfg : Option KeyPoolConfig) (now : Nat) (store : List ApiKey) (key : String)
    (ra : Nat) : (sendRequest oracle cfg now store key ra).2.2 = [] ∨
      ∃ t, (sendRequest oracle cfg now store key ra).2.2 = key :: t := by
  rw [sendRequest]
  by_cases h1 : 3 < ra
  · simp [h1]
  · simp only [h1, if_false]
    by_cases hok : respOk (oracle ra key)
    · simp [hok]
    · by_cases hex : isKeyExhausted (oracle ra key)
      · simp only [hok, Bool.false_eq_true, if_false, hex, if_true]
        cases hr2 : retryWithFreshKey cfg now (disableKey store key
            ("余额耗尽: " ++ ((oracle ra key).detail.getD "Payment Required")) now) key with
        | error e => simp
        | ok p =>
          obtain ⟨nk, st2⟩ := p
          simp
      · simp [hok, hex]

theorem sendRequest_trace_chain (oracle : Nat → String → UpResp)
    (cfg : Option KeyPoolConfig) (now : Nat) (store : List ApiKey) (key : String)
    (ra : Nat) :
    List.Chain' (fun a b => a ≠ b) (sendRequest oracle cfg now store key ra).2.2 := by
  rw [sendRequest]
  by_cases h1 : 3 < ra
  · simp [h1]
  · simp only [h1, if_false]
    by_cases hok : respOk (oracle ra key)
    · simp [hok]
    · by_cases hex : isKeyExhausted (oracle ra key)
      · simp only [hok, Bool.false_eq_true, if_false, hex, if_true]
        cases hr2 : retryWithFreshKey cfg now (disableKey store key
            ("余额耗尽: " ++ ((oracle ra key).detail.getD "Payment Required")) now) key with
        | error e => simp
        | ok p =>
          obtain ⟨nk, st2⟩ := p
          simp only [hr2]
          obtain ⟨sel, _, _, hselne, hnk, _⟩ := retryWithFreshKey_ok _ _ _ _ _ _ hr2
          have hchain := sendRequest_trace_chain oracle cfg now st2 nk (ra + 1)
          rcases sendRequest_trace_head oracle cfg now st2 nk (ra + 1) with hh | ⟨t, hh⟩
          · rw [hh]; simp
          · rw [hh] at hchain ⊢
            refine List.chain'_cons.2 ⟨?_, hchain⟩
            rw [hnk]
            exact fun hc => hselne hc.symm
      · simp [hok, hex]
termination_by 4 - ra

/-! ### C2: bounded retry on budget exhaustion -/

/-- C2: the dispatch loop fetches at most 4 times (the original attempt plus
3 retries); consecutive fetches never reuse a credential (the replacement is
never the one just disabled, and `retryWithFreshKey` never returns the
excluded credential); a non-2xx response that is not a 402 budget-exhaustion
is returned immediately without retry and the handler passes it through the
error transformer; a first-attempt budget exhaustion leaves the serving
credential disabled with the exhaustion reason in the final store; and when
the loop throws, the handler answers 503. -/
theorem sendRequest_retry_contract (oracle : Nat → String → UpResp)
    (cfg : Option KeyPoolConfig) (now : Nat) (store : List ApiKey) (key : String) :
    ((sendRequest oracle cfg now store key 0).2.2.length ≤ 4) ∧
    (List.Chain' (fun a b => a ≠ b) (sendRequest oracle cfg now store key 0).2.2) ∧
    (∀ (st1 st2 : List ApiKey) (nk : String),
      retryWithFreshKey cfg now st1 key = .ok (nk, st2) → nk ≠ key) ∧
    (respOk (oracle 0 key) = false → isKeyExhausted (oracle 0 key) = false →
      sendRequest oracle cfg now store key 0 = (.ok (oracle 0 key), store, [key])) ∧
    (respOk (oracle 0 key) = false → isKeyExhausted (oracle 0 key) = true →
      KeysNodup store → ∀ r0 : ApiKey, findKey store key = some r0 →
      findKey (sendRequest oracle cfg now store key 0).2.1 key =
        some { r0 with
               enabled := false
               disabledReason := some ("余额耗尽: " ++
                 ((oracle 0 key).detail.getD "Payment Required"))
               disabledAt := some now }) ∧
    (∀ (tokenCount : List ChatMessage → Nat) (body : ChatBody) (msgs : List Msg)
       (mdl k1 : String) (store1 st2 : List ApiKey) (tr : List String),
      body.messages = some msgs → msgs.isEmpty = false →
      body.model = some mdl → mdl ≠ "" →
      ¬ 128000 < tokenCount (msgs.map toChatMessage) →
      getKey cfg now store none = .ok (k1, store1) →
      ((∀ e : String, sendRequest oracle cfg now store1 k1 0 = (.error e, st2, tr) →
        handleChat tokenCount oracle cfg now store body = ⟨503, st2, tr⟩) ∧
       (∀ resp : UpResp, sendRequest oracle cfg now store1 k1 0 = (.ok resp, st2, tr) →
        respOk resp = false →
        handleChat tokenCount oracle cfg now store body =
          ⟨(transformError resp.errBody resp.status defaultTransformConfig).2, st2, tr⟩))) := by
  refine ⟨?_, ?_, ?_, ?_, ?_, ?_⟩
  · have h := sendRequest_trace_len oracle cfg now store key 0
    omega
  · exact sendRequest_trace_chain oracle cfg now store key 0
  · intro st1 st2 nk h
    obtain ⟨sel, _, _, hne, hnk, _⟩ := retryWithFreshKey_ok _ _ _ _ _ _ h
    rw [hnk]; exact hne
  · intro hok hex
    rw [sendRequest]
    simp [hok, hex]
  · intro hok hex hd r0 hr0
    rw [sendRequest]
    simp only [Nat.not_lt_zero, if_false, hok, Bool.false_eq_true, hex, if_true]
    have hf1 := disableKey_findKey_self store key
      ("余额耗尽: " ++ ((oracle 0 key).detail.getD "Payment Required")) now r0 hr0
    have hd1 : KeysNodup (disableKey store key
        ("余额耗尽: " ++ ((oracle 0 key).detail.getD "Payment Required")) now) :=
      keysNodup_disableKey _ _ _ _ hd
    cases hr2 : retryWithFreshKey cfg now (disableKey store key
        ("余额耗尽: " ++ ((oracle 0 key).detail.getD "Payment Required")) now) key with
    | error e => simpa [hr2] using hf1
    | ok p =>
      obtain ⟨nk, st2⟩ := p
      simp only [hr2]
      obtain ⟨sel, hselmem, hselen, hselne, hnk, hst2⟩ :=
        retryWithFreshKey_ok _ _ _ _ _ _ hr2
      have hf2 : findKey st2 key = some { r0 with
          enabled := false
          disabledReason := some ("余额耗尽: " ++
            ((oracle 0 key).detail.getD "Payment Required"))
          disabledAt := some now } := by
        rw [hst2, findKey_setKeyStore_other]
        · exact hf1
        · show (bumpSelected now sel).key ≠ key
          simpa using hselne
      have hd2 : KeysNodup st2 := by
        rw [hst2]; exact keysNodup_setKeyStore _ _ hd1
      have hknk : key ≠ nk := by
        rw [hnk]; exact fun hc => hselne hc.symm
      exact sendRequest_preserves_disabled oracle cfg now st2 nk 1 key _ hd2 hf2 rfl hknk
  · intro tokenCount body msgs mdl k1 store1 st2 tr hm hms hmo hmne htok hget
    constructor
    · intro e hsend
      unfold handleChat
      rw [hm]
      simp only [hms, Bool.false_eq_true, if_false]
      rw [hmo]
      simp only [hmne, if_false]
      simp only [htok, if_false]
      rw [hget]
      dsimp only
      rw [hsend]
    · intro resp hsend hrok
      unfold handleChat
      rw [hm]
      simp only [hms, Bool.false_eq_true, if_false]
      rw [hmo]
      simp only [hmne, if_false]
      simp only [htok, if_false]
      rw [hget]
      dsimp only
      rw [hsend]
      simp only [hrok, Bool.false_eq_true, if_false]

/-- Witness for C2 at concrete pools and oracles: retry exclusion,
pass-through without retry, first-attempt disable with the exhaustion
reason, the 503 answer once retries are impossible, and the
error-transformer answer for a plain 404. -/
theorem sendRequest_retry_contract_witness :
    (("b" : String) ≠ "a") ∧
    (sendRequest oracle404 none 7 [sampleKeyA] "a" 0 =
      (.ok (oracle404 0 "a"), [sampleKeyA], ["a"])) ∧
    (findKey (sendRequest oracle402 none 7 [sampleKeyA, sampleKeyB] "a" 0).2.1 "a" =
      some { sampleKeyA with
             enabled := false
             disabledReason := some "余额耗尽: you have exhausted your budget"
             disabledAt := some 7 }) ∧
    (handleChat sampleTokenCount oracle402 none 7 [sampleKeyA] sampleBody =
      ⟨503,
       disableKey (setKeyStore [sampleKeyA] (bumpSelected 7 sampleKeyA)) "a"
         "余额耗尽: you have exhausted your budget" 7,
       ["a"]⟩) ∧
    (handleChat sampleTokenCount oracle404 none 7 [sampleKeyA] sampleBody =
      ⟨404, setKeyStore [sampleKeyA] (bumpSelected 7 sampleKeyA), ["a"]⟩) :=
  ⟨(sendRequest_retry_contract oracle402 none 7 [sampleKeyA, sampleKeyB] "a").2.2.1
      [sampleKeyA, sampleKeyB]
      (setKeyStore [sampleKeyA, sampleKeyB] (bumpSelected 7 sampleKeyB)) "b" (by rfl),
   (sendRequest_retry_contract oracle404 none 7 [sampleKeyA] "a").2.2.2.1 (by rfl) (by rfl),
   (sendRequest_retry_contract oracle402 none 7 [sampleKeyA, sampleKeyB] "a").2.2.2.2.1
      (by rfl) (by rfl) (by unfold KeysNodup; decide) sampleKeyA (by rfl),
   ((sendRequest_retry_contract oracle402 none 7 [sampleKeyA] "a").2.2.2.2.2
      sampleTokenCount sampleBody [{ role := "user", content := .str "hi" }] "m" "a"
      (setKeyStore [sampleKeyA] (bumpSelected 7 sampleKeyA))
      (disableKey (setKeyStore [sampleKeyA] (bumpSelected 7 sampleKeyA)) "a"
        "余额耗尽: you have exhausted your budget" 7)
      ["a"]
      rfl rfl rfl (by decide) (by decide) (by rfl)).1 "没有可用的 API keys"
      (by rw [sendRequest]; rfl),
   ((sendRequest_retry_contract oracle404 none 7 [sampleKeyA] "a").2.2.2.2.2
      sampleTokenCount sampleBody [{ role := "user", content := .str "hi" }] "m" "a"
      (setKeyStore [sampleKeyA] (bumpSelected 7 sampleKeyA))
      (setKeyStore [sampleKeyA] (bumpSelected 7 sampleKeyA))
      ["a"]
      rfl rfl rfl (by decide) (by decide) (by rfl)).2 (oracle404 0 "a")
      (by rw [sendRequest]; rfl) (by rfl)⟩

/-! ### Lemmas relating `splitOnList` / `containsSub` to first occurrences -/

theorem containsSub_eq_isSome (sep : List Char) (hsep : sep ≠ []) (s : List Char) :
    containsSub sep s = (splitFirst sep s).isSome := by
  induction s with
  | nil =>
    simp only [containsSub, splitFirst, Option.isSome_none]
    simpa using hsep
  | cons c cs ih =>
    simp only [containsSub, splitFirst]
    by_cases hsw : startsWithL sep (c :: cs)
    · simp [hsw]
    · simp only [hsw, Bool.false_eq_true, if_false, Bool.false_or]
      rw [ih]
      cases splitFirst sep cs with
      | none => rfl
      | some p => cases p; rfl

theorem splitOnList_eq_splitFirst (sep : List Char) (hsep : sep ≠ [])
    (s : List Char) : splitOnList sep s =
      (match splitFirst sep s with
       | none => [s]
       | some (pre, post) => pre :: splitOnList sep post) := by
  match s with
  | [] =>
    have h0 : splitFirst sep [] = none := by
      cases sep with
      | nil => exact absurd rfl hsep
      | cons a as => rfl
    rw [h0, splitOnList]
  | c :: cs =>
    rw [splitOnList]
    by_cases hsw : startsWithL sep (c :: cs)
    · simp only [hsw, if_true, splitFirst]
      obtain ⟨a, as, rfl⟩ : ∃ a as, sep = a :: as := by
        cases sep with
        | nil => exact absurd rfl hsep
        | cons a as => exact ⟨a, as, rfl⟩
      simp only [List.length_cons, List.drop_succ_cons, Nat.add_sub_cancel]
    · simp only [hsw, Bool.false_eq_true, if_false, splitFirst]
      have ih := splitOnList_eq_splitFirst sep hsep cs
      rw [ih]
      cases hsf : splitFirst sep cs with
      | none => rfl
      | some p =>
        obtain ⟨pre, post⟩ := p
        rfl
termination_by s.length
decreasing_by simp only [List.length_cons]; omega

theorem splitOnList_no_sep (sep : List Char) (hsep : sep ≠ []) (s : List Char)
    (h : containsSub sep s = false) : splitOnList sep s = [s] := by
  rw [splitOnList_eq_splitFirst sep hsep s]
  rw [containsSub_eq_isSome sep hsep s] at h
  cases hsf : splitFirst sep s with
  | none => rfl
  | some p => rw [hsf] at h; simp at h

/-! ### C6: non-streaming transform, thinking-default branch -/

/-- C6: for a thinking-default model's buffered response with a closing
marker, the text before the first closing marker, trimmed, becomes the
reasoning field, and the text after it — truncated at the next closing
marker when one exists, text after that second marker being silently
dropped — trimmed, becomes the content field; without a closing marker the
content field empties and the whole trimmed text becomes reasoning.  The
trimming corrects the claim's "text before / text after" reading. -/
theorem specialModelTransform_first_marker :
    (∀ (content pre post : List Char),
      splitFirst closeThink content = some (pre, post) →
      specialModelTransform content =
        (trimL (match splitFirst closeThink post with
                | none => post
                | some (q, _) => q),
         trimL pre)) ∧
    (∀ content : List Char, containsSub closeThink content = false →
      specialModelTransform content = ([], trimL content)) := by
  have hsep : closeThink ≠ [] := by decide
  constructor
  · intro content pre post hsf
    have hcon : containsSub closeThink content = true := by
      rw [containsSub_eq_isSome closeThink hsep, hsf]
      rfl
    unfold specialModelTransform
    rw [hcon]
    simp only [if_true]
    rw [splitOnList_eq_splitFirst closeThink hsep content, hsf]
    dsimp only
    rw [splitOnList_eq_splitFirst closeThink hsep post]
    cases hsf2 : splitFirst closeThink post with
    | none => rfl
    | some p =>
      obtain ⟨q, r⟩ := p
      rfl
  · intro content h
    unfold specialModelTransform
    rw [h]
    rfl

/-- Witness for C6: the spec's own example `"A</think>B"`, a multi-marker
input whose trailing segment is dropped, and a no-marker input. -/
theorem specialModelTransform_first_marker_witness :
    specialModelTransform "A</think>B".data = (trimL "B".data, trimL "A".data) ∧
    specialModelTransform "A</think>B</think>C".data =
      (trimL "B".data, trimL "A".data) ∧
    specialModelTransform "noMarker".data = ([], trimL "noMarker".data) :=
  ⟨specialModelTransform_first_marker.1 "A</think>B".data "A".data "B".data
      (by decide),
   specialModelTransform_first_marker.1 "A</think>B</think>C".data "A".data
      "B</think>C".data (by decide),
   specialModelTransform_first_marker.2 "noMarker".data (by decide)⟩

/-- Counterexample for C6 as stated: on `"A </think>B"` the claim predicts
the reasoning field `"A "` (the text before the marker), but the code trims
it to `"A"`. -/
theorem specialModelTransform_trim_cex :
    (specialModelTransform "A </think>B".data).2 ≠ "A ".data ∧
    specialModelTransform "A </think>B".data = ("B".data, "A".data) := by
  have hsep : closeThink ≠ [] := by decide
  have h1 : specialModelTransform "A </think>B".data = ("B".data, "A".data) := by
    unfold specialModelTransform
    rw [show containsSub closeThink "A </think>B".data = true from by decide]
    simp only [if_true]
    rw [splitOnList_eq_splitFirst closeThink hsep,
      show splitFirst closeThink "A </think>B".data = some ("A ".data, "B".data) from by decide]
    dsimp only
    rw [splitOnList_no_sep closeThink hsep "B".data (by decide)]
    decide
  refine ⟨?_, h1⟩
  rw [h1]
  decide

/-! ### Lemmas on first-occurrence decompositions and the regex scan -/

theorem startsWithL_decomp (p : List Char) : ∀ s : List Char,
    startsWithL p s = true → s = p ++ s.drop p.length := by
  induction p with
  | nil => intro s _; simp
  | cons a ps ih =>
    intro s h
    cases s with
    | nil => simp [startsWithL] at h
    | cons c cs =>
      simp only [startsWithL, Bool.and_eq_true, beq_iff_eq] at h
      obtain ⟨rfl, h2⟩ := h
      simp only [List.length_cons, List.drop_succ_cons, List.cons_append]
      exact congrArg (List.cons _) (ih cs h2)

theorem splitFirst_decomp (sep : List Char) : ∀ (s pre post : List Char),
    splitFirst sep s = some (pre, post) → s = pre ++ sep ++ post := by
  intro s
  induction s with
  | nil => intro pre post h; simp [splitFirst] at h
  | cons c cs ih =>
    intro pre post h
    rw [splitFirst] at h
    by_cases hsw : startsWithL sep (c :: cs)
    · simp only [hsw, if_true, Option.some.injEq, Prod.mk.injEq] at h
      obtain ⟨h1, h2⟩ := h
      subst h1
      subst h2
      simpa using startsWithL_decomp sep (c :: cs) hsw
    · simp only [hsw, Bool.false_eq_true, if_false] at h
      cases hsf : splitFirst sep cs with
      | none => rw [hsf] at h; simp at h
      | some p =>
        obtain ⟨pre2, post2⟩ := p
        rw [hsf] at h
        simp only [Option.some.injEq, Prod.mk.injEq] at h
        obtain ⟨h1, h2⟩ := h
        subst h1
        subst h2
        have := ih pre2 post2 hsf
        simp [this]

theorem containsSub_false_of_suffix (pat t1 t2 : List Char) (hsuf : t1 <:+ t2)
    (h : containsSub pat t2 = false) : containsSub pat t1 = false := by
  obtain ⟨l, rfl⟩ := hsuf
  induction l with
  | nil => simpa using h
  | cons a l ih =>
    apply ih
    rw [List.cons_append] at h
    simp only [containsSub, Bool.or_eq_false_iff] at h
    exact h.2

theorem findThinkMatch_eq (s : List Char) :
    findThinkMatch s =
      (match splitFirst openThink s with
       | none => none
       | some (pre, rest) =>
         match splitFirst closeThink rest with
         | none => none
         | some (inner, post) => some (pre, inner, post)) := by
  induction s with
  | nil => rfl
  | cons c cs ih =>
    by_cases hsw : startsWithL openThink (c :: cs)
    · have hsf : splitFirst openThink (c :: cs) =
          some ([], (c :: cs).drop openThink.length) := by
        rw [splitFirst]; simp [hsw]
      have htry : tryMatchAt (c :: cs) =
          splitFirst closeThink ((c :: cs).drop openThink.length) := by
        unfold tryMatchAt; simp [hsw]
      rw [hsf]
      cases hcl : splitFirst closeThink ((c :: cs).drop openThink.length) with
      | some p =>
        obtain ⟨inner, post⟩ := p
        rw [findThinkMatch, htry, hcl]
        dsimp only
        rw [hcl]
      | none =>
        rw [findThinkMatch, htry, hcl]
        dsimp only
        have hcs : findThinkMatch cs = none := by
          rw [ih]
          cases hsf2 : splitFirst openThink cs with
          | none => rfl
          | some p2 =>
            obtain ⟨pre2, rest2⟩ := p2
            dsimp only
            have hno : containsSub closeThink ((c :: cs).drop openThink.length) = false := by
              rw [containsSub_eq_isSome closeThink (by decide), hcl]; rfl
            have hdecomp := splitFirst_decomp openThink cs pre2 rest2 hsf2
            have hsuf2 : rest2 <:+ (c :: cs) := by
              refine List.IsSuffix.trans ?_ (List.suffix_cons c cs)
              rw [hdecomp]
              exact List.suffix_append _ rest2
            have hsufd : (c :: cs).drop openThink.length <:+ (c :: cs) :=
              List.drop_suffix _ _
            have hdec := startsWithL_decomp openThink (c :: cs) hsw
            have hlen1 : (c :: cs).length =
                openThink.length + ((c :: cs).drop openThink.length).length := by
              conv_lhs => rw [hdec]
              simp [List.length_append]
            have hlen2 : cs.length = pre2.length + openThink.length + rest2.length := by
              conv_lhs => rw [hdecomp]
              simp [List.length_append]
              omega
            have hlen : rest2.length < ((c :: cs).drop openThink.length).length := by
              simp only [List.length_cons] at hlen1
              omega
            have hsufr : rest2 <:+ (c :: cs).drop openThink.length := by
              rcases List.suffix_or_suffix_of_suffix hsuf2 hsufd with h | h
              · exact h
              · exact absurd h.length_le (by omega)
            have hnone : containsSub closeThink rest2 = false :=
              containsSub_false_of_suffix _ _ _ hsufr hno
            rw [containsSub_eq_isSome closeThink (by decide)] at hnone
            cases hsf3 : splitFirst closeThink rest2 with
            | none => rfl
            | some _ => rw [hsf3] at hnone; simp at hnone
        rw [hcs]
        dsimp only
        rw [hcl]
    · have hsf : splitFirst openThink (c :: cs) =
          (match splitFirst openThink cs with
           | some (pre, post) => some (c :: pre, post)
           | none => none) := by
        rw [splitFirst]; simp [hsw]
      have htry : tryMatchAt (c :: cs) = none := by
        unfold tryMatchAt; simp [hsw]
      rw [findThinkMatch, htry]
      dsimp only
      rw [ih, hsf]
      cases hsf2 : splitFirst openThink cs with
      | none => rfl
      | some p2 =>
        obtain ⟨pre2, rest2⟩ := p2
        dsimp only
        cases hsf3 : splitFirst closeThink rest2 with
        | none => rfl
        | some p3 =>
          obtain ⟨inner, post⟩ := p3
          rfl

/-! ### C7: non-streaming transform, regular-model branch -/

/-- C7: for a regular model, the first complete marker pair — the first
opening marker and the first closing marker after it — has its enclosed
text, trimmed, moved to the reasoning field, while the pair and its
contents are stripped and the remaining content trimmed; with no opening
marker, or no closing marker after the first opening one, the content is
returned unmodified with no reasoning field.  The trimming corrects the
claim's "enclosed text" and "removed from the content" reading. -/
theorem regularModelTransform_spec :
    (∀ (content pre rest inner post : List Char),
      splitFirst openThink content = some (pre, rest) →
      splitFirst closeThink rest = some (inner, post) →
      regularModelTransform content = (trimL (pre ++ post), some (trimL inner))) ∧
    (∀ content : List Char, containsSub openThink content = false →
      regularModelTransform content = (content, none)) ∧
    (∀ (content pre rest : List Char),
      splitFirst openThink content = some (pre, rest) →
      containsSub closeThink rest = false →
      regularModelTransform content = (content, none)) := by
  refine ⟨?_, ?_, ?_⟩
  · intro content pre rest inner post h1 h2
    unfold regularModelTransform
    rw [findThinkMatch_eq, h1]
    dsimp only
    rw [h2]
  · intro content h
    unfold regularModelTransform
    rw [findThinkMatch_eq]
    rw [containsSub_eq_isSome openThink (by decide)] at h
    cases hsf : splitFirst openThink content with
    | none => rfl
    | some p => rw [hsf] at h; simp at h
  · intro content pre rest h1 h2
    unfold regularModelTransform
    rw [findThinkMatch_eq, h1]
    rw [containsSub_eq_isSome closeThink (by decide)] at h2
    cases hsf : splitFirst closeThink rest with
    | none =>
      dsimp only
      rw [hsf]
    | some p => rw [hsf] at h2; simp at h2

/-- Witness for C7: the spec's own example `"<think>A</think>B"`, a
marker-free input, and an input whose opening marker is never closed. -/
theorem regularModelTransform_spec_witness :
    regularModelTransform "<think>A</think>B".data =
      (trimL (([] : List Char) ++ "B".data), some (trimL "A".data)) ∧
    regularModelTransform "plain".data = ("plain".data, none) ∧
    regularModelTransform "x<think>y".data = ("x<think>y".data, none) :=
  ⟨regularModelTransform_spec.1 "<think>A</think>B".data [] "A</think>B".data
      "A".data "B".data (by decide) (by decide),
   regularModelTransform_spec.2.1 "plain".data (by decide),
   regularModelTransform_spec.2.2 "x<think>y".data "x".data "y".data
      (by decide) (by decide)⟩

/-- Counterexample for C7 as stated: on `"<think> A </think>B"` the claim
predicts the reasoning field `" A "` (the enclosed text), but the code
trims it to `"A"`. -/
theorem regularModelTransform_trim_cex :
    (regularModelTransform "<think> A </think>B".data).2 ≠ some " A ".data ∧
    regularModelTransform "<think> A </think>B".data = ("B".data, some "A".data) := by
  constructor
  · decide
  · decide

/-! ### Lemmas on the `\n\n` frame split -/

theorem consHead_ne_nil (c : Char) (l : List (List Char)) : consHead c l ≠ [] := by
  cases l <;> simp [consHead]

theorem splitSep_ne_nil : ∀ s : List Char, splitSep s ≠ []
  | [] => by simp [splitSep]
  | [c] => by simp [splitSep]
  | c1 :: c2 :: rest => by
    rw [splitSep]
    split
    · simp
    · exact consHead_ne_nil _ _

theorem getLastD_of_ne_nil {α : Type} (a d : α) (l : List α) (h : l ≠ []) :
    (a :: l).getLastD d = l.getLastD d := by
  cases l with
  | nil => exact absurd rfl h
  | cons b m => simp [List.getLastD_cons]

theorem getLastD_append_of_ne_nil {α : Type} (A Q : List α) (d : α) (h : Q ≠ []) :
    (A ++ Q).getLastD d = Q.getLastD d := by
  induction A with
  | nil => rfl
  | cons a A ih =>
    rw [List.cons_append, getLastD_of_ne_nil a d _ (by simp [h]), ih]

theorem splitSep_single : ∀ s x : List Char, splitSep s = [x] → x = s
  | [], x, h => by
    simp only [splitSep, List.cons.injEq, and_true] at h
    exact h.symm
  | [c], x, h => by
    simp only [splitSep, List.cons.injEq, and_true] at h
    exact h.symm
  | c1 :: c2 :: rest, x, h => by
    rw [splitSep] at h
    split at h
    · simp only [List.cons.injEq] at h
      exact absurd h.2 (splitSep_ne_nil rest)
    · cases hl : splitSep (c2 :: rest) with
      | nil => exact absurd hl (splitSep_ne_nil _)
      | cons f fs =>
        rw [hl] at h
        simp only [consHead, List.cons.injEq] at h
        obtain ⟨hx, hfs⟩ := h
        have hf : f = c2 :: rest := by
          apply splitSep_single (c2 :: rest) f
          rw [hl, hfs]
        rw [← hx, hf]

theorem splitSep_cons_of_not_sep (c : Char) (u : List Char)
    (h : ¬(c = '\n' ∧ u.head? = some '\n')) :
    splitSep (c :: u) = consHead c (splitSep u) := by
  cases u with
  | nil => rfl
  | cons d u2 =>
    rw [splitSep]
    have hb : (decide (c = '\n') && decide (d = '\n')) = false := by
      by_cases h1 : c = '\n'
      · by_cases h2 : d = '\n'
        · exact absurd ⟨h1, by rw [h2]; rfl⟩ h
        · simp [h2]
      · simp [h1]
    rw [hb]
    simp

theorem splitSep_append : ∀ s t : List Char,
    splitSep (s ++ t) =
      (splitSep s).dropLast ++ splitSep ((splitSep s).getLastD [] ++ t)
  | [], t => by simp [splitSep]
  | [c], t => by simp [splitSep]
  | c1 :: c2 :: rest, t => by
    by_cases hc : c1 = '\n' ∧ c2 = '\n'
    · obtain ⟨rfl, rfl⟩ := hc
      have h1 : splitSep ('\n' :: '\n' :: (rest ++ t)) = [] :: splitSep (rest ++ t) := by
        rw [splitSep]; simp
      have h2 : splitSep ('\n' :: '\n' :: rest) = [] :: splitSep rest := by
        rw [splitSep]; simp
      rw [List.cons_append, List.cons_append, h1, h2]
      have hne := splitSep_ne_nil rest
      rw [List.dropLast_cons_of_ne_nil hne, getLastD_of_ne_nil _ _ _ hne,
        List.cons_append, splitSep_append rest t]
    · have hb : (decide (c1 = '\n') && decide (c2 = '\n')) = false := by
        by_cases h1 : c1 = '\n'
        · by_cases h2 : c2 = '\n'
          · exact absurd ⟨h1, h2⟩ hc
          · simp [h2]
        · simp [h1]
      have h1 : splitSep (c1 :: c2 :: (rest ++ t)) =
          consHead c1 (splitSep (c2 :: (rest ++ t))) := by
        rw [splitSep, hb]; simp
      have h2 : splitSep (c1 :: c2 :: rest) = consHead c1 (splitSep (c2 :: rest)) := by
        rw [splitSep, hb]; simp
      rw [List.cons_append, List.cons_append, h1, h2]
      have ih := splitSep_append (c2 :: rest) t
      rw [List.cons_append] at ih
      cases hl : splitSep (c2 :: rest) with
      | nil => exact absurd hl (splitSep_ne_nil _)
      | cons f fs =>
        rw [hl] at ih
        cases fs with
        | nil =>
          have hf : f = c2 :: rest := splitSep_single _ _ hl
          have hg1 : ([f] : List (List Char)).getLastD [] = f := by
            simp [List.getLastD_cons]
          have hg2 : ([c1 :: f] : List (List Char)).getLastD [] = c1 :: f := by
            simp [List.getLastD_cons]
          rw [hg1, List.dropLast_single, List.nil_append] at ih
          rw [ih]
          simp only [consHead]
          rw [List.dropLast_single, hg2, List.nil_append]
          have hstep : splitSep (c1 :: (f ++ t)) = consHead c1 (splitSep (f ++ t)) := by
            apply splitSep_cons_of_not_sep
            intro hcon
            apply hc
            refine ⟨hcon.1, ?_⟩
            have hh : (f ++ t).head? = some c2 := by rw [hf]; rfl
            rw [hh] at hcon
            exact Option.some.inj hcon.2
          rw [List.cons_append]
          exact hstep.symm
        | cons g gs =>
          rw [ih]
          have hgs : (g :: gs) ≠ [] := by simp
          simp only [consHead, List.cons_append]
          rw [List.dropLast_cons_of_ne_nil hgs, getLastD_of_ne_nil f _ _ hgs,
            List.dropLast_cons_of_ne_nil hgs, getLastD_of_ne_nil (c1 :: f) _ _ hgs]
          simp [List.cons_append]

theorem processMessages_append (codec : JsonCodec) (bm : List Char) :
    ∀ (ms1 ms2 : List (List Char)) (ps : SSEState),
    processMessages codec bm ps (ms1 ++ ms2) =
      ((processMessages codec bm (processMessages codec bm ps ms1).1 ms2).1,
       (processMessages codec bm ps ms1).2 ++
         (processMessages codec bm (processMessages codec bm ps ms1).1 ms2).2) := by
  intro ms1
  induction ms1 with
  | nil => intro ms2 ps; simp [processMessages]
  | cons m ms ih =>
    intro ms2 ps
    simp only [List.cons_append, processMessages, List.append_eq]
    rw [ih]
    simp [List.append_assoc]

/-! ### C3 (amended): streaming transform under re-chunking -/

/-- C3 (amended): feeding the streaming transform two texts one after the
other produces exactly the state and the concatenated output of feeding
their concatenation at once — so output is invariant under re-chunking at
UTF-8 character boundaries (each chunk is decoded separately, so only
byte-level cuts inside a multi-byte character, shown in the counterexample,
break the as-stated claim); and every complete frame that is neither
whitespace-only nor a `data:` frame is reproduced verbatim with its `\n\n`
terminator, preserving frame order. -/
theorem transformStream_rechunk (codec : JsonCodec) (bodyModel : List Char)
    (st : TState) (t1 t2 : List Char) :
    (transformStreamText codec bodyModel st (t1 ++ t2) =
      ((transformStreamText codec bodyModel
          (transformStreamText codec bodyModel st t1).1 t2).1,
       (transformStreamText codec bodyModel st t1).2 ++
         (transformStreamText codec bodyModel
           (transformStreamText codec bodyModel st t1).1 t2).2)) ∧
    (∀ (ps : SSEState) (msg : List Char), trimL msg ≠ [] →
      startsWithL dataMarker (trimL msg) = false →
      processMessage codec bodyModel ps msg = (ps, msg ++ ['\n', '\n'])) := by
  constructor
  · unfold transformStreamText
    dsimp only
    rw [← List.append_assoc]
    rw [splitSep_append (st.buffer ++ t1) t2]
    have hQ := splitSep_ne_nil ((splitSep (st.buffer ++ t1)).getLastD [] ++ t2)
    rw [List.dropLast_append_of_ne_nil _ hQ]
    rw [getLastD_append_of_ne_nil _ _ _ hQ]
    rw [processMessages_append]
  · intro ps msg hne hsw
    unfold processMessage
    dsimp only
    rw [if_neg hne]
    have h2 : trimL msg ≠ doneMessage := by
      intro hcon
      rw [hcon] at hsw
      exact absurd hsw (by decide)
    rw [if_neg h2, hsw]
    simp

/-- Witness for C3 at a concrete non-data frame: the whitespace and `data:`
hypotheses discharged on `": x"`. -/
theorem transformStream_rechunk_witness :
    processMessage trivialCodec cexModel ⟨false, 0, 0, 0⟩ ": x".data =
      (⟨false, 0, 0, 0⟩, ": x".data ++ ['\n', '\n']) :=
  (transformStream_rechunk trivialCodec cexModel (initialTState cexModel) [] []).2
    ⟨false, 0, 0, 0⟩ ": x".data (by decide) (by decide)

/-- Counterexample for C3 as stated: the frame `": é\n\n"` fed as one chunk
versus split inside the two-byte é produces different output bytes — the
source decodes each chunk with a fresh `TextDecoder`, so a chunk boundary
inside a multi-byte UTF-8 character corrupts it to replacement characters. -/
theorem transformStream_utf8_split_cex :
    (cexChunk1 ++ cexChunk2 = cexFrameBytes) ∧
    ((transformStreamBytes trivialCodec cexModel (initialTState cexModel) cexChunk1).2 ++
     (transformStreamBytes trivialCodec cexModel
        (transformStreamBytes trivialCodec cexModel (initialTState cexModel) cexChunk1).1
        cexChunk2).2
     ≠ (transformStreamBytes trivialCodec cexModel (initialTState cexModel)
          cexFrameBytes).2) := by
  constructor
  · decide
  · decide
